import Mathlib

/-!
# Verification of the MCT parser core (mct_parser)

A shallow embedding, in Lean 4, of the command-block splitting and dispatch
engine of the `mct_parser` repository (`parser.py`) together with the family
decoders that the verified properties exercise
(`parsers/analysis_parsers.py`, `parsers/load_parsers.py`,
`parsers/tapered_section_parsers.py`, `parsers/basic_parsers.py`) and the
result model (`models/base.py`).

Python strings are represented as `List Char` (`PyStr`); the Python string
operations used by the source (`strip`, `split`, `split(sep)`, substring
containment, `find`, `startswith`, `splitlines`, `replace`) are defined below
on that representation.  Python `int(...)` is modelled by `pyInt?` (decimal
digits with an optional sign, the ASCII core of the builtin), Python
`float(...)` by the acceptance test `isPyFloat` together with the accepted
token as the carried value (no claim below depends on floating-point
arithmetic, only on which tokens convert and on the produced structure).
Fallible code returns `Except`/`Option`: a `.error` value of a decoder or of
the splitter marks exactly the places where the Python code raises an
uncaught exception.
-/

deriving instance DecidableEq for Except

/-- Python strings, represented as their character sequences. -/
abbrev PyStr := List Char

/-- Coerce a Lean string literal to the `PyStr` representation. -/
def pstr (s : String) : PyStr := s.data

/-- Whitespace test used by `str.strip()` / `str.split()` (ASCII core). -/
def wsChar (c : Char) : Bool := c.isWhitespace

/-- `s.strip()`: remove leading and trailing whitespace. -/
def pyStrip (l : PyStr) : PyStr :=
  ((l.dropWhile wsChar).reverse.dropWhile wsChar).reverse

/-- `s.split(c)` for a single-character separator `c`:
split at every occurrence, keeping empty pieces (`"".split(',') == ['']`). -/
def splitChar (c : Char) : PyStr → List PyStr
  | [] => [[]]
  | x :: xs =>
    if x = c then [] :: splitChar c xs
    else
      match splitChar c xs with
      | [] => [[x]]
      | r :: rs => (x :: r) :: rs

/-- Helper for `s.split()`: accumulate the current word (reversed). -/
def splitWsAux : PyStr → List Char → List PyStr
  | [], acc => if acc = [] then [] else [acc.reverse]
  | x :: xs, acc =>
    if wsChar x then
      if acc = [] then splitWsAux xs [] else acc.reverse :: splitWsAux xs []
    else splitWsAux xs (x :: acc)

/-- `s.split()` with no argument: split on runs of whitespace, dropping
empty pieces (`"".split() == []`). -/
def splitWs (l : PyStr) : List PyStr := splitWsAux l []

/-- `s.split(sep)` for a two-character separator `sep = ⟨a, b⟩`, scanning left
to right over non-overlapping occurrences (the source only ever splits on the
two-character separators `"to"` and `"by"`). -/
def splitOn2 (a b : Char) : PyStr → List PyStr
  | [] => [[]]
  | [c] => [[c]]
  | c :: d :: rest =>
    if c = a ∧ d = b then [] :: splitOn2 a b rest
    else
      match splitOn2 a b (d :: rest) with
      | [] => [[c]]
      | r :: rs => (c :: r) :: rs

/-- ASCII decimal digit value of a digit character. -/
def digitVal (c : Char) : Nat := c.toNat - 48

/-- The decimal digit character of a digit value. -/
def digitOf : Nat → Char
  | 0 => '0' | 1 => '1' | 2 => '2' | 3 => '3' | 4 => '4'
  | 5 => '5' | 6 => '6' | 7 => '7' | 8 => '8' | _ => '9'

/-- The decimal digit character of `n % 10`. -/
def digitChar10 (n : Nat) : Char := digitOf (n % 10)

/-- Fuel-driven helper for `natDigits` (structural recursion, so that the
kernel can evaluate digit renderings inside `decide`/`rfl` proofs; the fuel
is never exhausted for the actual call, see `natDigits_eq`). -/
def natDigitsAux : Nat → Nat → PyStr
  | 0, n => [digitChar10 n]
  | fuel + 1, n =>
    if n < 10 then [digitChar10 n]
    else natDigitsAux fuel (n / 10) ++ [digitChar10 n]

/-- Decimal digits of a natural number, most significant first. -/
def natDigits (n : Nat) : PyStr := natDigitsAux n n

/-- Render an integer the way Python's `str` does. -/
def intToPyStr (i : Int) : PyStr :=
  if i < 0 then '-' :: natDigits i.natAbs else natDigits i.natAbs

/-- Value of a nonempty all-digit character list, or `none`. -/
def digitsVal? (ds : PyStr) : Option Nat :=
  if ds ≠ [] ∧ ds.all Char.isDigit then
    some (ds.foldl (fun a c => a * 10 + digitVal c) 0)
  else none

/-- Python `int(s)`: strip whitespace, optional sign, decimal digits
(the ASCII core of the builtin; no underscore grouping, no base prefixes). -/
def pyInt? (l : PyStr) : Option Int :=
  let t := pyStrip l
  if t.head? = some '+' then (digitsVal? t.tail).map Int.ofNat
  else if t.head? = some '-' then (digitsVal? t.tail).map (fun n => -(n : Int))
  else (digitsVal? t).map Int.ofNat

/-- `list(range(start, stop, step))` for `step ≠ 0` (the `step = 0` case
raises in Python and is handled by the callers below before calling this). -/
def pyRangeList (start stop step : Int) : List Int :=
  if 0 < step then
    if start < stop then
      (List.range ((stop - start - 1).toNat / step.toNat + 1)).map
        (fun (k : Nat) => start + step * (k : Int))
    else []
  else if step < 0 then
    if stop < start then
      (List.range ((start - stop - 1).toNat / (-step).toNat + 1)).map
        (fun (k : Nat) => start + step * (k : Int))
    else []
  else []

/-- Message of the `ValueError` raised by `int(tok)` on a bad literal. -/
def intValueErrorMsg (tok : PyStr) : PyStr :=
  pstr "invalid literal for int() with base 10: '" ++ tok ++ pstr "'"

/-- Message of the `ValueError` raised by `range(a, b, 0)`. -/
def rangeStepZeroMsg : PyStr := pstr "range() arg 3 must not be zero"

/-- `int(tok)` as the source uses it outside a `try`: raise on failure. -/
def pyIntE (tok : PyStr) : Except PyStr Int :=
  match pyInt? tok with
  | some v => .ok v
  | none => .error (intValueErrorMsg tok)

/-- One token of `MCTParser._parse_index_list` (`parser.py:338-356`): a token
containing `"to"` is split into `start`/`end`(/`by` step) pieces, each
converted with `int` (raising on failure, exactly as the source does); any
other token is appended when it is an integer and silently ignored otherwise.
`'to' in part` (resp. `'by' in range_parts[1]`) holds exactly when the
corresponding `split` yields at least two pieces, so the source's
containment test plus split is rendered as one match on the split. -/
def parseIndexToken (acc : List Int) (part : PyStr) : Except PyStr (List Int) :=
  match splitOn2 't' 'o' part with
  | r0 :: r1 :: _ => do
    let start ← pyIntE r0
    match splitOn2 'b' 'y' r1 with
    | e0 :: e1 :: _ => do
      let stop ← pyIntE e0
      let step ← pyIntE e1
      if step = 0 then .error rangeStepZeroMsg
      else .ok (acc ++ pyRangeList start (stop + 1) step)
    | _ => do
      let stop ← pyIntE r1
      .ok (acc ++ pyRangeList start (stop + 1) 1)
  | _ =>
    match pyInt? part with
    | some v => .ok (acc ++ [v])
    | none => .ok acc

/-- Token loop of `_parse_index_list`. -/
def parseIndexParts (acc : List Int) : List PyStr → Except PyStr (List Int)
  | [] => .ok acc
  | p :: ps => do
    let acc' ← parseIndexToken acc p
    parseIndexParts acc' ps

/-- `MCTParser._parse_index_list` (`parser.py:318-358`): expand an
index-list expression.  A `.error` value marks an uncaught `ValueError`. -/
def parseIndexList (text : PyStr) : Except PyStr (List Int) :=
  if text = [] ∨ pyStrip text = [] then .ok []
  else parseIndexParts [] (splitWs text)

/-! ## Result model (`models/base.py`) -/

/-- Association list with Python-`dict` insertion semantics: assignment to an
existing key replaces the value in place, a new key is appended (Python dicts
preserve insertion order; iteration order is the list order). -/
abbrev Dict (V : Type) := List (PyStr × V)

/-- `d[k] = v` on a Python dict. -/
def dictInsert {V : Type} (d : Dict V) (k : PyStr) (v : V) : Dict V :=
  if d.any (fun p => p.1 = k) then
    d.map (fun p => if p.1 = k then (k, v) else p)
  else d ++ [(k, v)]

/-- `d.get(k)` / `d[k]` lookup on a Python dict. -/
def dictLookup {V : Type} (d : Dict V) (k : PyStr) : Option V :=
  (d.find? (fun p => p.1 = k)).map (·.2)

/-- A value stored in a decoder's `options` dict: a string, an `int`, or a
`float` (carried as its accepted source token). -/
inductive OptV where
  | s (v : PyStr)
  | i (v : Int)
  | f (v : PyStr)
deriving DecidableEq, Repr

/-- One nested `INPUT` row of a `BSTEMPER` element
(`load_parsers.py:262-271`); float fields carry their accepted tokens,
the defaulted `temp2` carries the literal `0.0` token. -/
structure TempSection where
  stype : PyStr
  elasticity : PyStr
  thermal : PyStr
  width : PyStr
  height1 : PyStr
  temp1 : PyStr
  height2 : PyStr
  temp2 : PyStr
deriving DecidableEq, Repr

/-- One element's temperature data in a `BSTEMPER` block
(`load_parsers.py:219-227`). -/
structure ElemTemper where
  elemId : Int
  direction : PyStr
  refPoint : PyStr
  numSections : Int
  group : PyStr
  isPsc : Bool
  sections : List TempSection
deriving DecidableEq, Repr

/-- A `z_variation`/`y_variation` sub-record of a `TS-GROUP` row
(`tapered_section_parsers.py:130-143`). -/
structure Variation where
  vtype : PyStr
  exponent : Option PyStr
  fromDirection : Option PyStr
  distance : Option PyStr
deriving DecidableEq, Repr

/-- Decoded command records of the embedded family decoders.  Every record
carries the `raw_lines`/`line_nums` the decoder stored. -/
inductive CmdRec where
  | version (ver : PyStr) (rawLines : List PyStr) (lineNums : List Nat)
  | eigenCtrl (modes maxIterations : Int) (tolerance : PyStr)
      (options : Dict OptV) (rawLines : List PyStr) (lineNums : List Nat)
  | selfWeight (factors : List PyStr) (options : Dict OptV)
      (rawLines : List PyStr) (lineNums : List Nat)
  | bsTemper (temperatures : List ElemTemper)
      (rawLines : List PyStr) (lineNums : List Nat)
  | tsGroup (gid : Nat) (name : PyStr) (elements : List Int)
      (zVariation yVariation : Variation) (sectionControlMethod : PyStr)
      (rawLines : List PyStr) (lineNums : List Nat)
deriving DecidableEq, Repr

/-- The `raw_lines` field of a record. -/
def CmdRec.rawOf : CmdRec → List PyStr
  | .version _ r _ => r
  | .eigenCtrl _ _ _ _ r _ => r
  | .selfWeight _ _ r _ => r
  | .bsTemper _ r _ => r
  | .tsGroup _ _ _ _ _ _ r _ => r

/-- The `line_nums` field of a record. -/
def CmdRec.numsOf : CmdRec → List Nat
  | .version _ _ n => n
  | .eigenCtrl _ _ _ _ _ n => n
  | .selfWeight _ _ _ n => n
  | .bsTemper _ _ n => n
  | .tsGroup _ _ _ _ _ _ _ n => n

/-- `MCTModel` (`models/base.py:114-126`): decoded records keyed by command
name plus the two append-only logs. -/
structure Model where
  commands : Dict CmdRec
  errors : List PyStr
  warnings : List PyStr
deriving DecidableEq, Repr

/-- The fresh model built at the start of `parse_text`. -/
def Model.empty : Model := ⟨[], [], []⟩

/-- `MCTModel.add_command` (`models/base.py:124-126`). -/
def Model.addCommand (m : Model) (k : PyStr) (r : CmdRec) : Model :=
  { m with commands := dictInsert m.commands k r }

/-- `model.errors.append(e)`. -/
def Model.addError (m : Model) (e : PyStr) : Model :=
  { m with errors := m.errors ++ [e] }

/-- `model.warnings.append(w)`. -/
def Model.addWarning (m : Model) (w : PyStr) : Model :=
  { m with warnings := m.warnings ++ [w] }

/-- `MCTModel.get_commands_by_type` (`models/base.py:140-154`): the commands
whose key starts with the given string. -/
def Model.commandsByType (m : Model) (pre : PyStr) : Dict CmdRec :=
  m.commands.filter (fun p => pre.isPrefixOf p.1)

/-! ## Line preprocessing and block splitting (`parser.py:258-316`) -/

/-- `MCTParser._preprocess_line` (`parser.py:258-274`): drop everything from
the first `;` on, then strip (both branches of the source strip, and
taking the prefix before the first `;` is the identity when there is none). -/
def preprocessLine (l : PyStr) : PyStr :=
  pyStrip (l.takeWhile (· ≠ ';'))

/-- `text.splitlines()` (the `\n` / `\r` / `\r\n` core): no trailing empty
line is produced. -/
def splitLinesAux : PyStr → List Char → List PyStr
  | [], acc => if acc = [] then [] else [acc.reverse]
  | '\r' :: '\n' :: rest, acc => acc.reverse :: splitLinesAux rest []
  | c :: rest, acc =>
    if c = '\n' ∨ c = '\r' then acc.reverse :: splitLinesAux rest []
    else splitLinesAux rest (c :: acc)

/-- `text.splitlines()`. -/
def splitLines (text : PyStr) : List PyStr := splitLinesAux text []

/-- Message of the `IndexError` raised by indexing past the end of a list. -/
def indexErrMsg : PyStr := pstr "list index out of range"

/-- The splitter's output: command keyword ↦ (block lines, 1-based original
line numbers); the keyword's own `*` line is the first stored row. -/
abbrev BlockDict := Dict (List PyStr × List Nat)

/-- One iteration of the loop of `MCTParser._split_command_blocks`
(`parser.py:288-310`) on the line with 0-based index `i`, carrying the open
block (keyword, collected rows, collected line numbers) and the blocks
stored so far.  `line.startswith('*')` is `line.head? = some '*'` and
`line[1:]` is `line.tail`; a `*` line with no keyword token after the
marker makes `cmd_parts[0]` raise an uncaught `IndexError`
(`parser.py:302-303`), rendered as `.error`. -/
def splitStep (i : Nat) (raw : PyStr) (cur : Option PyStr) (ls : List PyStr)
    (ns : List Nat) (d : BlockDict) :
    Except PyStr (Option PyStr × List PyStr × List Nat × BlockDict) :=
  let line := preprocessLine raw
  if line = [] then .ok (cur, ls, ns, d)
  else if line.head? = some '*' then
    let d' := match cur with
      | some c => dictInsert d c (ls, ns)
      | none => d
    match splitWs line.tail with
    | [] => .error indexErrMsg
    | k :: _ => .ok (some k, [line], [i + 1], d')
  else
    match cur with
    | some _ => .ok (cur, ls ++ [line], ns ++ [i + 1], d)
    | none => .ok (none, ls, ns, d)

/-- The loop of `MCTParser._split_command_blocks` over the remaining raw
lines, followed by the final save of `parser.py:312-314`. -/
def splitBlocksAux : List PyStr → Nat → Option PyStr → List PyStr → List Nat →
    BlockDict → Except PyStr BlockDict
  | [], _, cur, ls, ns, d =>
    match cur with
    | some c => if ls ≠ [] then .ok (dictInsert d c (ls, ns)) else .ok d
    | none => .ok d
  | raw :: rest, i, cur, ls, ns, d =>
    match splitStep i raw cur ls ns d with
    | .error e => .error e
    | .ok (cur', ls', ns', d') => splitBlocksAux rest (i + 1) cur' ls' ns' d'

/-- `MCTParser._split_command_blocks` (`parser.py:276-316`). -/
def splitCommandBlocks (rawLines : List PyStr) : Except PyStr BlockDict :=
  splitBlocksAux rawLines 0 none [] [] []

/-! ## Family decoders -/

/-- A family decoder: block lines, block line numbers, model in; model out
plus, when the Python decoder raises an exception that escapes to the
dispatcher, its message. -/
abbrev Decoder := List PyStr → List Nat → Model → Model × Option PyStr

/-- Message of the `ValueError` raised by `float(tok)` on a bad literal. -/
def floatValueErrorMsg (tok : PyStr) : PyStr :=
  pstr "could not convert string to float: '" ++ tok ++ pstr "'"

/-- Exponent suffix of a Python float literal (empty, or `e`/`E`, optional
sign, one or more digits). -/
def floatExpOk : PyStr → Bool
  | [] => true
  | e :: r =>
    (e = 'e' ∨ e = 'E' : Bool) &&
      match r with
      | '+' :: ds => ds ≠ [] && ds.all Char.isDigit
      | '-' :: ds => ds ≠ [] && ds.all Char.isDigit
      | ds => ds ≠ [] && ds.all Char.isDigit

/-- Unsigned body of a Python float literal: digits with an optional point
(at least one digit somewhere) and an optional exponent, or `inf`/`nan`. -/
def isPyFloatCore (l : PyStr) : Bool :=
  let low := l.map Char.toLower
  if low = pstr "inf" ∨ low = pstr "infinity" ∨ low = pstr "nan" then true
  else
    let d1 := l.takeWhile Char.isDigit
    let r1 := l.dropWhile Char.isDigit
    match r1 with
    | '.' :: r2 =>
      let d2 := r2.takeWhile Char.isDigit
      let r3 := r2.dropWhile Char.isDigit
      (d1 ≠ [] ∨ d2 ≠ [] : Bool) && floatExpOk r3
    | _ => (d1 ≠ [] : Bool) && floatExpOk r1

/-- Acceptance test of Python `float(s)` (ASCII core: stripped input,
optional sign, digits/point/exponent or `inf`/`nan`). -/
def isPyFloat (l : PyStr) : Bool :=
  match pyStrip l with
  | '+' :: r => isPyFloatCore r
  | '-' :: r => isPyFloatCore r
  | r => isPyFloatCore r

/-- `float(tok)` where the source lets the `ValueError` escape or catches
it: the value is carried as the accepted (stripped) token. -/
def pyFloatE (tok : PyStr) : Except PyStr PyStr :=
  if isPyFloat tok then .ok (pyStrip tok) else .error (floatValueErrorMsg tok)

/-- `BasicCommandParser.parse_version` (`basic_parsers.py:28-42`). -/
def parseVersionD : Decoder := fun lines nums m =>
  if lines.length < 2 then
    (m.addError (pstr "无效的VERSION命令: 缺少版本信息"), none)
  else
    match lines[1]? with
    | some l1 =>
      (m.addCommand (pstr "VERSION") (.version (pyStrip l1) lines nums), none)
    | none => (m, some indexErrMsg)

/-- Error message of `parse_eigen_ctrl` for a data row with fewer than three
fields (`analysis_parsers.py:43`). -/
def eigenInsufficientMsg (n : Nat) : PyStr :=
  pstr "无效的EIGEN-CTRL命令: 参数不足，行号 " ++ natDigits n

/-- Error message of `parse_eigen_ctrl`'s `except ValueError` handler
(`analysis_parsers.py:74`). -/
def eigenValueErrMsg (e : PyStr) : PyStr :=
  pstr "解析EIGEN-CTRL命令时出错: " ++ e

/-- Body of `parse_eigen_ctrl`'s `try` block (`analysis_parsers.py:46-60`):
required `modes`/`max_iterations`/`tolerance`, then the positional optional
tail, converted in source order; any `ValueError` aborts the whole row. -/
def parseEigenRow (parts : List PyStr) :
    Except PyStr (Int × Int × PyStr × Dict OptV) := do
  let modes ← pyIntE (parts.getD 0 [])
  let maxIterations ← pyIntE (parts.getD 1 [])
  let tolerance ← pyFloatE (parts.getD 2 [])
  let o1 : Dict OptV :=
    if parts.length > 3 then [(pstr "method", OptV.s (parts.getD 3 []))] else []
  let o2 ←
    if parts.length > 4 then do
      let v ← pyFloatE (parts.getD 4 [])
      pure (o1 ++ [(pstr "shift", OptV.f v)])
    else pure o1
  let o3 :=
    if parts.length > 5 then o2 ++ [(pstr "norm", OptV.s (parts.getD 5 []))] else o2
  let o4 ←
    if parts.length > 6 then do
      let v ← pyIntE (parts.getD 6 [])
      pure (o3 ++ [(pstr "imass", OptV.i v)])
    else pure o3
  pure (modes, maxIterations, tolerance, o4)

/-- `AnalysisParser.parse_eigen_ctrl` (`analysis_parsers.py:26-74`). -/
def parseEigenCtrlD : Decoder := fun lines nums m =>
  if lines.length < 2 then
    (m.addError (pstr "无效的EIGEN-CTRL命令: 缺少控制参数"), none)
  else
    match lines[1]? with
    | none => (m, some indexErrMsg)
    | some l1 =>
      let parts := splitWs (pyStrip l1)
      if parts.length < 3 then
        match nums[1]? with
        | none => (m, some indexErrMsg)
        | some n1 => (m.addError (eigenInsufficientMsg n1), none)
      else
        match parseEigenRow parts with
        | .ok (modes, maxIterations, tolerance, opts) =>
          (m.addCommand (pstr "EIGEN-CTRL")
            (.eigenCtrl modes maxIterations tolerance opts lines nums), none)
        | .error e => (m.addError (eigenValueErrMsg e), none)

/-- `re` word character (`\w`, ASCII core). -/
def isWordChar (c : Char) : Bool := c.isAlphanum || c = '_'

/-- Anchored match of `KEY=(\w+)` at the start of `s`: the literal key, `=`,
then a nonempty maximal word-character run (the capture). -/
def reMatchKeyEq (key : PyStr) (s : PyStr) : Option PyStr :=
  if (key ++ ['=']).isPrefixOf s then
    let w := (s.drop (key.length + 1)).takeWhile isWordChar
    if w ≠ [] then some w else none
  else none

/-- `re.search(KEY + r'=(\w+)', s)`: leftmost match of `reMatchKeyEq`. -/
def reSearchKeyEq (key : PyStr) : PyStr → Option PyStr
  | [] => none
  | c :: rest =>
    match reMatchKeyEq key (c :: rest) with
    | some w => some w
    | none => reSearchKeyEq key rest

/-- `' '.join(parts)`. -/
def joinWithSpace : List PyStr → PyStr
  | [] => []
  | [t] => t
  | t :: t' :: ts => t ++ ' ' :: joinWithSpace (t' :: ts)

/-- `LoadParser.parse_selfweight` (`load_parsers.py:86-132`): the first up to
three fields become float factors, a failed conversion defaulting to `0.0`
(`load_parsers.py:107-111`); the factor list is padded to three entries;
`GROUP=`/`ACTIVE=` options are extracted by regex search from the joined
tail.  Nothing inside the outer `try` can raise (all conversions are caught
by the inner `try`), so the decoder always stores a record once the two
length guards pass. -/
def parseSelfWeightD : Decoder := fun lines nums m =>
  if lines.length < 2 then
    (m.addError (pstr "无效的SELFWEIGHT命令: 缺少自重定义"), none)
  else
    match lines[1]? with
    | none => (m, some indexErrMsg)
    | some l1 =>
      let parts := splitWs (pyStrip l1)
      if parts.length < 1 then
        (m.addError (pstr "无效的SELFWEIGHT命令: 缺少自重定义"), none)
      else
        let factors0 := (parts.take 3).map
          (fun p => if isPyFloat p then pyStrip p else pstr "0.0")
        let factors := factors0 ++ List.replicate (3 - factors0.length) (pstr "0.0")
        let opts : Dict OptV :=
          if parts.length > 3 then
            let optionsStr := joinWithSpace (parts.drop 3)
            (match reSearchKeyEq (pstr "GROUP") optionsStr with
             | some w => [(pstr "group", OptV.s w)]
             | none => []) ++
            (match reSearchKeyEq (pstr "ACTIVE") optionsStr with
             | some w => [(pstr "active", OptV.s w)]
             | none => [])
          else []
        (m.addCommand (pstr "SELFWEIGHT") (.selfWeight factors opts lines nums),
         none)

/-- `parse_bstemper` error message for a header row with fewer than five
fields (`load_parsers.py:197`). -/
def bstHeaderShortMsg (line : PyStr) (n : Nat) : PyStr :=
  pstr "无效的梁温度荷载定义: " ++ line ++ pstr "，行号 " ++ natDigits n ++
    pstr "，至少需要5个参数"

/-- `parse_bstemper` error message of both `except ValueError` handlers
(`load_parsers.py:230` and `:282`). -/
def bstValueErrMsg (line : PyStr) (n : Nat) (e : PyStr) : PyStr :=
  pstr "解析温度荷载定义时出错: " ++ line ++ pstr "，行号 " ++ natDigits n ++
    pstr "，错误: " ++ e

/-- `parse_bstemper` error message for an `INPUT` row with no preceding
element header (`load_parsers.py:235`). -/
def bstNoElemMsg (line : PyStr) (n : Nat) : PyStr :=
  pstr "遇到INPUT行但没有先定义元素数据: " ++ line ++ pstr "，行号 " ++
    natDigits n

/-- `parse_bstemper` error message for an `INPUT` row with fewer than eight
fields (`load_parsers.py:241`). -/
def bstInputShortMsg (line : PyStr) (n : Nat) : PyStr :=
  pstr "无效的温度截面定义: " ++ line ++ pstr "，行号 " ++ natDigits n ++
    pstr "，至少需要7个参数"

/-- `parse_bstemper` end-of-block shortfall message (`load_parsers.py:289`). -/
def bstShortfallMsg (elemId expected : Int) (actual : Nat) : PyStr :=
  pstr "元素 " ++ intToPyStr elemId ++ pstr " 的温度截面数据不足，期望 " ++
    intToPyStr expected ++ pstr " 个，实际只有 " ++ natDigits actual ++ pstr " 个"

/-- `try` body of a `BSTEMPER` element header row (`load_parsers.py:201-227`):
`parts` are the comma-split, individually stripped fields. -/
def parseBstHeader (parts : List PyStr) : Except PyStr ElemTemper := do
  let elemId ← pyIntE (parts.getD 0 [])
  let direction := parts.getD 1 []
  let refPoint := parts.getD 2 []
  let numSections ← pyIntE (parts.getD 3 [])
  let group :=
    if 4 < parts.length ∧ pyStrip (parts.getD 4 []) ≠ [] then parts.getD 4 []
    else []
  let isPsc :=
    if 5 < parts.length ∧ pyStrip (parts.getD 5 []) ≠ [] then
      ((parts.getD 5 []).map Char.toUpper = pstr "YES" : Bool)
    else false
  pure ⟨elemId, direction, refPoint, numSections, group, isPsc, []⟩

/-- `try` body of a `BSTEMPER` nested `INPUT` row (`load_parsers.py:245-271`):
`dp` is `parts[1:]`, the whitespace-split fields after the `INPUT` keyword. -/
def parseBstInput (dp : List PyStr) : Except PyStr TempSection := do
  let stype := dp.getD 0 []
  let elasticity ← pyFloatE (dp.getD 1 [])
  let thermal ← pyFloatE (dp.getD 2 [])
  let width ← pyFloatE (dp.getD 3 [])
  let height1 ← pyFloatE (dp.getD 4 [])
  let temp1 ← pyFloatE (dp.getD 5 [])
  let height2 ← pyFloatE (dp.getD 6 [])
  let temp2 ←
    if 7 < dp.length then pyFloatE (dp.getD 7 []) else pure (pstr "0.0")
  pure ⟨stype, elasticity, thermal, width, height1, temp1, height2, temp2⟩

/-- One iteration of the `while` loop of `LoadParser.parse_bstemper`
(`load_parsers.py:185-284`) on line `l0` at 0-based index `i`: either an
element-header row (replacing any in-progress element), a nested `INPUT`
row (collected into the in-progress element, finalizing it when the declared
count is reached), or a logged row-level error.  `.error` is an uncaught
`IndexError` from `line_nums[i]`. -/
def bstStep (i : Nat) (nums : List Nat) (l0 : PyStr) (cur : Option ElemTemper)
    (temps : List ElemTemper) (m : Model) :
    Except (Model × PyStr) (Option ElemTemper × List ElemTemper × Model) :=
  let line := pyStrip l0
  if line = [] then .ok (cur, temps, m)
  else if ¬ (pstr "INPUT").isPrefixOf (pyStrip line) then
    -- element header row
    let parts := (splitChar ',' line).map pyStrip
    if parts.length < 5 then
      match nums[i]? with
      | none => .error (m, indexErrMsg)
      | some n => .ok (cur, temps, m.addError (bstHeaderShortMsg line n))
    else
      match parseBstHeader parts with
      | .ok d => .ok (some d, temps, m)
      | .error e =>
        match nums[i]? with
        | none => .error (m, indexErrMsg)
        | some n => .ok (cur, temps, m.addError (bstValueErrMsg line n e))
  else
    -- nested INPUT row
    match cur with
    | none =>
      match nums[i]? with
      | none => .error (m, indexErrMsg)
      | some n => .ok (none, temps, m.addError (bstNoElemMsg line n))
    | some d =>
      let parts := splitWs (pyStrip line)
      if parts.length < 8 then
        match nums[i]? with
        | none => .error (m, indexErrMsg)
        | some n => .ok (some d, temps, m.addError (bstInputShortMsg line n))
      else
        match parseBstInput (parts.drop 1) with
        | .ok sec =>
          let d' := { d with sections := d.sections ++ [sec] }
          if (d'.sections.length : Int) = d.numSections then
            .ok (none, temps ++ [d'], m)
          else .ok (some d', temps, m)
        | .error e =>
          match nums[i]? with
          | none => .error (m, indexErrMsg)
          | some n => .ok (some d, temps, m.addError (bstValueErrMsg line n e))

/-- The `while` loop of `parse_bstemper`, iterating `bstStep` over the
remaining lines. -/
def bstLoop : List PyStr → Nat → List Nat → Option ElemTemper →
    List ElemTemper → Model →
    Except (Model × PyStr) (List ElemTemper × Option ElemTemper × Model)
  | [], _, _, cur, temps, m => .ok (temps, cur, m)
  | l0 :: rest, i, nums, cur, temps, m =>
    match bstStep i nums l0 cur temps m with
    | .error em => .error em
    | .ok (cur', temps', m') => bstLoop rest (i + 1) nums cur' temps' m'

/-- End-of-block epilogue of `parse_bstemper` (`load_parsers.py:286-290`):
an in-progress element with at least one collected section is emitted, with
a shortfall error when it has fewer sections than declared. -/
def bstFinish (cur : Option ElemTemper) (temps : List ElemTemper) (m : Model) :
    List ElemTemper × Model :=
  match cur with
  | some d =>
    if d.sections ≠ [] then
      if (d.sections.length : Int) < d.numSections then
        (temps ++ [d],
         m.addError (bstShortfallMsg d.elemId d.numSections d.sections.length))
      else (temps ++ [d], m)
    else (temps, m)
  | none => (temps, m)

/-- `LoadParser.parse_bstemper` (`load_parsers.py:165-294`). -/
def parseBsTemperD : Decoder := fun lines nums m =>
  match bstLoop (lines.drop 1) 1 nums none [] m with
  | .error (m', e) => (m', some e)
  | .ok (temps, cur, m') =>
    let (temps2, m2) := bstFinish cur temps m'
    (m2.addCommand (pstr "BSTEMPER") (.bsTemper temps2 lines nums), none)

/-- Anchored `re.match(r'(\d+)to(\d+)by(\d+)', g)`: maximal digit runs (a
digit can never start the literal `to`/`by`, so greedy matching needs no
backtracking); trailing characters are allowed, as `re.match` only anchors
the start. -/
def reMatchRangeBy (g : PyStr) : Option (Int × Int × Int) :=
  let d1 := g.takeWhile Char.isDigit
  let r1 := g.dropWhile Char.isDigit
  if d1 = [] then none
  else
    match r1 with
    | 't' :: 'o' :: r2 =>
      let d2 := r2.takeWhile Char.isDigit
      let r3 := r2.dropWhile Char.isDigit
      if d2 = [] then none
      else
        match r3 with
        | 'b' :: 'y' :: r4 =>
          let d3 := r4.takeWhile Char.isDigit
          if d3 = [] then none
          else
            some (Int.ofNat ((digitsVal? d1).getD 0),
                  Int.ofNat ((digitsVal? d2).getD 0),
                  Int.ofNat ((digitsVal? d3).getD 0))
        | _ => none
    | _ => none

/-- Anchored `re.match(r'(\d+)to(\d+)', g)`. -/
def reMatchRange (g : PyStr) : Option (Int × Int) :=
  let d1 := g.takeWhile Char.isDigit
  let r1 := g.dropWhile Char.isDigit
  if d1 = [] then none
  else
    match r1 with
    | 't' :: 'o' :: r2 =>
      let d2 := r2.takeWhile Char.isDigit
      if d2 = [] then none
      else some (Int.ofNat ((digitsVal? d1).getD 0), Int.ofNat ((digitsVal? d2).getD 0))
    | _ => none

/-- One group of `TaperedSectionParser.parse_element_list`
(`tapered_section_parsers.py:40-64`): `a to b by s` range (where a zero
step makes `range` raise `ValueError`, which the caller's `except` catches),
then `a to b` range, then a bare `^\d+$` number; anything else contributes
nothing. -/
def elemGroupExpand (g : PyStr) : Except PyStr (List Int) :=
  match reMatchRangeBy g with
  | some (a, b, st) =>
    if st = 0 then .error rangeStepZeroMsg else .ok (pyRangeList a (b + 1) st)
  | none =>
    match reMatchRange g with
    | some (a, b) => .ok (pyRangeList a (b + 1) 1)
    | none =>
      if g ≠ [] ∧ g.all Char.isDigit then
        .ok [Int.ofNat ((digitsVal? g).getD 0)]
      else .ok []

/-- `TaperedSectionParser.parse_element_list`
(`tapered_section_parsers.py:25-66`).  `re.split(r'\s+', s)` differs from
`s.split()` only by empty boundary pieces, which the loop's
`if not group: continue` drops, so the iteration is over `splitWs s`. -/
def parseElementList (s : PyStr) : Except PyStr (List Int) :=
  (splitWs s).foldlM (fun acc g => do pure (acc ++ (← elemGroupExpand g))) []

/-- `parse_ts_group_line` warning for a row with fewer than seven fields
(`tapered_section_parsers.py:123`). -/
def tsgBadLineMsg (n : Nat) : PyStr :=
  pstr "忽略无效的TS-GROUP行: 格式不正确，行号 " ++ natDigits n

/-- `parse_ts_group_line` error of the `except Exception` handler
(`tapered_section_parsers.py:165`). -/
def tsgErrMsg (line : PyStr) (n : Nat) (e : PyStr) : PyStr :=
  pstr "解析TS-GROUP命令时出错: " ++ line ++ pstr "，行号 " ++ natDigits n ++
    pstr "，错误: " ++ e

/-- `parts[i].strip() if len(parts) > i and parts[i].strip() else None`
(`tapered_section_parsers.py:132-142`; the fields are already stripped). -/
def tsgOptField (parts : List PyStr) (i : Nat) : Option PyStr :=
  if i < parts.length ∧ pyStrip (parts.getD i []) ≠ [] then
    some (pyStrip (parts.getD i []))
  else none

/-- `TaperedSectionParser.parse_ts_group_line`
(`tapered_section_parsers.py:104-166`): decode one row into a `TsGroup`
record, or log a warning (short row) or an error (the `except Exception`
handler, reachable only through `parse_element_list`'s `range` call). -/
def parseTsGroupLine (m : Model) (line0 : PyStr) (lineNum : Nat) :
    Model × Option CmdRec :=
  let line := pyStrip (line0.filter (· ≠ '\\'))
  let parts := (splitChar ',' line).map pyStrip
  if parts.length < 7 then
    (m.addWarning (tsgBadLineMsg lineNum), none)
  else
    let name := parts.getD 0 []
    let zVariation : Variation :=
      ⟨(parts.getD 2 []).map Char.toLower, tsgOptField parts 3,
        tsgOptField parts 4, tsgOptField parts 5⟩
    let yVariation : Variation :=
      ⟨(parts.getD 6 []).map Char.toLower, tsgOptField parts 7,
        tsgOptField parts 8, tsgOptField parts 9⟩
    let sectionControlMethod := (tsgOptField parts 10).getD (pstr "0")
    match parseElementList (parts.getD 1 []) with
    | .error e => (m.addError (tsgErrMsg line lineNum e), none)
    | .ok elements =>
      (m, some (.tsGroup (m.commandsByType (pstr "TS-GROUP")).length name
        elements zVariation yVariation sectionControlMethod [line] [lineNum]))

/-- Synthesized model key of the `group_id`-th `TS-GROUP` record
(`tapered_section_parsers.py:100`). -/
def tsGroupKey (gid : Nat) : PyStr := pstr "TS-GROUP_" ++ natDigits gid

/-- The skip loop of `parse_ts_group` (`tapered_section_parsers.py:81-86`):
advance past empty, comment and `*TS-GROUP` lines. -/
def tsgSkip : List PyStr → Nat → List PyStr × Nat
  | [], i => ([], i)
  | l :: rest, i =>
    let s := pyStrip l
    if s ≠ [] ∧ ¬ (pstr ";").isPrefixOf s ∧ ¬ (pstr "*TS-GROUP").isPrefixOf s then
      (l :: rest, i)
    else tsgSkip rest (i + 1)

/-- The main loop of `parse_ts_group` (`tapered_section_parsers.py:89-102`):
each successfully decoded row is stored under the synthesized key
`TS-GROUP_<n>` where `n` counts the `TS-GROUP`-prefixed commands already in
the model.  `line_nums[i]` is read for every decoded row, so a too-short
`line_nums` raises an uncaught `IndexError` (`.error`). -/
def tsgLoop : List PyStr → Nat → List Nat → Model → Except (Model × PyStr) Model
  | [], _, _, m => .ok m
  | l :: rest, i, nums, m =>
    let line := pyStrip l
    if line = [] ∨ (pstr ";").isPrefixOf line then tsgLoop rest (i + 1) nums m
    else
      match nums[i]? with
      | none => .error (m, indexErrMsg)
      | some n =>
        match parseTsGroupLine m line n with
        | (m1, some r) =>
          let gid := (m1.commandsByType (pstr "TS-GROUP")).length
          tsgLoop rest (i + 1) nums (m1.addCommand (tsGroupKey gid) r)
        | (m1, none) => tsgLoop rest (i + 1) nums m1

/-- `TaperedSectionParser.parse_ts_group`
(`tapered_section_parsers.py:68-102`). -/
def parseTsGroupD : Decoder := fun lines nums m =>
  if lines.length < 2 then
    (m.addError (pstr "无效的TS-GROUP命令: 缺少变截面组信息"), none)
  else
    let (rest, i) := tsgSkip lines 0
    match tsgLoop rest i nums m with
    | .ok m' => (m', none)
    | .error (m', e) => (m', some e)

/-! ## Command registry and dispatch (`parser.py:77-256`) -/

/-- A command registry: keyword ↦ decoder.  `parse_text` looks blocks up by
the keyword string (the enum round-trip of `parser.py:215-235` resolves to
exactly this value lookup).  The dispatch theorems below are parametric in
the table; `theTable` instantiates it with the embedded family decoders. -/
abbrev DecoderTable := PyStr → Option Decoder

/-- The embedded part of `MCTParser.command_parsers` (`parser.py:82-160`). -/
def theTable : DecoderTable := fun k =>
  if k = pstr "VERSION" then some parseVersionD
  else if k = pstr "EIGEN-CTRL" then some parseEigenCtrlD
  else if k = pstr "SELFWEIGHT" then some parseSelfWeightD
  else if k = pstr "BSTEMPER" then some parseBsTemperD
  else if k = pstr "TS-GROUP" then some parseTsGroupD
  else none

/-- Error entry appended by `parse_text`'s `except` handler for a decoder
exception (`parser.py:228,237`). -/
def decodeErrEntry (cmd e : PyStr) : PyStr :=
  pstr "解析命令 " ++ cmd ++ pstr " 时出错: " ++ e

/-- Warning entry appended by `parse_text` for an unrecognized keyword
(`parser.py:240`). -/
def unknownCmdEntry (cmd : PyStr) : PyStr := pstr "未知命令: " ++ cmd

/-- Dispatch of one block (`parser.py:213-243`): look the keyword up, run
the decoder with any escaping exception converted into one error entry, or
log an unknown-command warning. -/
def runBlock (tbl : DecoderTable) (m : Model)
    (b : PyStr × List PyStr × List Nat) : Model :=
  match tbl b.1 with
  | some d =>
    match d b.2.1 b.2.2 m with
    | (m', none) => m'
    | (m', some e) => m'.addError (decodeErrEntry b.1 e)
  | none => m.addWarning (unknownCmdEntry b.1)

/-- The block loop of `parse_text`, in the splitter dict's insertion order. -/
def runBlocks (tbl : DecoderTable) (blocks : List (PyStr × List PyStr × List Nat))
    (m : Model) : Model :=
  blocks.foldl (runBlock tbl) m

/-- `MCTParser.parse_text` (`parser.py:193-256`): split the document into
command blocks, then decode each block into a fresh model.  An `.error`
value is an exception escaping `parse_text` itself (only the splitter's
`IndexError` on a bare `*` line can do so). -/
def parseText (tbl : DecoderTable) (text : PyStr) : Except PyStr Model := do
  let blocks ← splitCommandBlocks (splitLines text)
  pure (runBlocks tbl blocks Model.empty)

/-! ## Basic facts about the string primitives -/

theorem dropWhile_head_not {p : Char → Bool} {l : PyStr} {c : Char}
    (h : (l.dropWhile p).head? = some c) : p c = false := by
  induction l with
  | nil => simp at h
  | cons x xs ih =>
    rw [List.dropWhile_cons] at h
    by_cases hx : p x
    · simp [hx] at h; exact ih h
    · simp [hx] at h; simpa [← h] using hx

theorem dropWhile_eq_self {p : Char → Bool} {l : PyStr}
    (h : ∀ c, l.head? = some c → p c = false) : l.dropWhile p = l := by
  cases l with
  | nil => rfl
  | cons x xs => simp [List.dropWhile_cons, h x rfl]

theorem dropWhile_getLast? {p : Char → Bool} {l : PyStr}
    (h : l.dropWhile p ≠ []) : (l.dropWhile p).getLast? = l.getLast? := by
  induction l with
  | nil => simp at h
  | cons x xs ih =>
    rw [List.dropWhile_cons]
    rw [List.dropWhile_cons] at h
    by_cases hx : p x
    · simp only [hx, if_true] at h ⊢
      rw [ih h]
      cases xs with
      | nil => simp at h
      | cons y ys => rw [List.getLast?_cons_cons]
    · simp [hx]

theorem pyStrip_head_not {l : PyStr} {c : Char}
    (h : (pyStrip l).head? = some c) : wsChar c = false := by
  unfold pyStrip at h
  rw [List.head?_reverse] at h
  have hne : (l.dropWhile wsChar).reverse.dropWhile wsChar ≠ [] := by
    intro h0; rw [h0] at h; simp at h
  rw [dropWhile_getLast? hne, List.getLast?_reverse] at h
  exact dropWhile_head_not h

theorem pyStrip_getLast_not {l : PyStr} {c : Char}
    (h : (pyStrip l).getLast? = some c) : wsChar c = false := by
  unfold pyStrip at h
  rw [List.getLast?_reverse] at h
  exact dropWhile_head_not h

theorem pyStrip_idem (l : PyStr) : pyStrip (pyStrip l) = pyStrip l := by
  have h1 : (pyStrip l).dropWhile wsChar = pyStrip l :=
    dropWhile_eq_self (fun c hc => pyStrip_head_not hc)
  show (((pyStrip l).dropWhile wsChar).reverse.dropWhile wsChar).reverse = pyStrip l
  rw [h1]
  have h2 : (pyStrip l).reverse.dropWhile wsChar = (pyStrip l).reverse :=
    dropWhile_eq_self (fun c hc => by
      rw [List.head?_reverse] at hc; exact pyStrip_getLast_not hc)
  rw [h2, List.reverse_reverse]

theorem pyStrip_noWs {l : PyStr} (h : ∀ c ∈ l, wsChar c = false) :
    pyStrip l = l := by
  unfold pyStrip
  have h1 : l.dropWhile wsChar = l :=
    dropWhile_eq_self (fun c hc => h c (List.mem_of_mem_head? hc))
  rw [h1]
  have h2 : l.reverse.dropWhile wsChar = l.reverse :=
    dropWhile_eq_self (fun c hc =>
      h c (List.mem_reverse.mp (List.mem_of_mem_head? hc)))
  rw [h2, List.reverse_reverse]

theorem pyStrip_nil : pyStrip [] = [] := rfl

/-! ## Decimal digits: rendering and parsing round-trip -/

theorem digitOf_isDigit (k : Nat) : (digitOf k).isDigit = true := by
  rcases k with _|_|_|_|_|_|_|_|_|_ <;> rfl

theorem digitOf_not_ws (k : Nat) : wsChar (digitOf k) = false := by
  rcases k with _|_|_|_|_|_|_|_|_|_ <;> rfl

theorem digitVal_digitOf {k : Nat} (h : k < 10) : digitVal (digitOf k) = k := by
  interval_cases k <;> rfl

theorem isDigit_not_ws {c : Char} (h : c.isDigit = true) : wsChar c = false := by
  by_contra hw
  rw [Bool.not_eq_false] at hw
  simp only [wsChar, Char.isWhitespace, Bool.or_eq_true, decide_eq_true_eq] at hw
  rcases hw with ((h1 | h1) | h1) | h1 <;> (subst h1; exact absurd h (by decide))

theorem natDigitsAux_fuel : ∀ (n f1 f2 : Nat), n ≤ f1 → n ≤ f2 →
    natDigitsAux f1 n = natDigitsAux f2 n := by
  intro n
  induction n using Nat.strong_induction_on with
  | _ n ih =>
    intro f1 f2 h1 h2
    match f1, f2 with
    | 0, 0 => rfl
    | 0, f2 + 1 =>
      have hn : n = 0 := by omega
      subst hn
      rfl
    | f1 + 1, 0 =>
      have hn : n = 0 := by omega
      subst hn
      rfl
    | f1 + 1, f2 + 1 =>
      show (if n < 10 then _ else _) = (if n < 10 then _ else _)
      by_cases hn : n < 10
      · rw [if_pos hn, if_pos hn]
      · rw [if_neg hn, if_neg hn]
        congr 1
        exact ih (n / 10) (Nat.div_lt_self (by omega) (by omega))
          f1 f2 (by omega) (by omega)

theorem natDigits_eq (n : Nat) :
    natDigits n =
      if n < 10 then [digitChar10 n] else natDigits (n / 10) ++ [digitChar10 n] := by
  unfold natDigits
  by_cases hn : n < 10
  · rw [if_pos hn]
    match n, hn with
    | 0, _ => rfl
    | (m + 1), hn => show (if m + 1 < 10 then _ else _) = _; rw [if_pos hn]
  · rw [if_neg hn]
    match n, hn with
    | (m + 1), hn =>
      show (if m + 1 < 10 then _ else _) = _
      rw [if_neg hn]
      congr 1
      exact natDigitsAux_fuel ((m + 1) / 10) m ((m + 1) / 10) (by omega) (by omega)

theorem natDigits_ne_nil (n : Nat) : natDigits n ≠ [] := by
  rw [natDigits_eq]
  split <;> simp

theorem natDigits_all_digits (n : Nat) : ∀ c ∈ natDigits n, c.isDigit = true := by
  induction n using Nat.strong_induction_on with
  | _ n ih =>
    rw [natDigits_eq]
    split
    · intro c hc
      simp only [List.mem_singleton] at hc
      subst hc; exact digitOf_isDigit _
    · intro c hc
      rcases List.mem_append.mp hc with h | h
      · exact ih (n / 10) (Nat.div_lt_self (by omega) (by omega)) c h
      · simp only [List.mem_singleton] at h
        subst h; exact digitOf_isDigit _

theorem digitsFold_append (xs : PyStr) (x : Char) (a : Nat) :
    (xs ++ [x]).foldl (fun a c => a * 10 + digitVal c) a =
      (xs.foldl (fun a c => a * 10 + digitVal c) a) * 10 + digitVal x := by
  rw [List.foldl_append]
  rfl

theorem natDigits_foldl (n : Nat) :
    (natDigits n).foldl (fun a c => a * 10 + digitVal c) 0 = n := by
  induction n using Nat.strong_induction_on with
  | _ n ih =>
    rw [natDigits_eq]
    split
    · next h =>
      show 0 * 10 + digitVal (digitChar10 n) = n
      simp only [digitChar10, Nat.zero_mul, Nat.zero_add]
      rw [Nat.mod_eq_of_lt h]
      exact digitVal_digitOf h
    · next h =>
      rw [digitsFold_append, ih (n / 10) (Nat.div_lt_self (by omega) (by omega))]
      simp only [digitChar10]
      rw [digitVal_digitOf (Nat.mod_lt _ (by omega))]
      omega

theorem digitsVal?_natDigits (n : Nat) : digitsVal? (natDigits n) = some n := by
  unfold digitsVal?
  rw [if_pos]
  · rw [natDigits_foldl]
  · refine ⟨natDigits_ne_nil n, ?_⟩
    rw [List.all_eq_true]
    intro c hc
    exact natDigits_all_digits n c hc

theorem natDigits_no_ws (n : Nat) : ∀ c ∈ natDigits n, wsChar c = false :=
  fun c hc => isDigit_not_ws (natDigits_all_digits n c hc)

theorem pyInt?_natDigits (n : Nat) : pyInt? (natDigits n) = some (Int.ofNat n) := by
  unfold pyInt?
  rw [pyStrip_noWs (natDigits_no_ws n)]
  cases h : natDigits n with
  | nil => exact absurd h (natDigits_ne_nil n)
  | cons c cs =>
    have hc : c.isDigit = true :=
      natDigits_all_digits n c (by rw [h]; exact List.mem_cons_self c cs)
    have hplus : (c :: cs : PyStr).head? ≠ some '+' := by
      intro hq
      simp only [List.head?_cons, Option.some.injEq] at hq
      rw [hq] at hc; exact absurd hc (by decide)
    have hminus : (c :: cs : PyStr).head? ≠ some '-' := by
      intro hq
      simp only [List.head?_cons, Option.some.injEq] at hq
      rw [hq] at hc; exact absurd hc (by decide)
    simp only [if_neg hplus, if_neg hminus]
    rw [← h, digitsVal?_natDigits]
    rfl

theorem wsChar_dash : wsChar '-' = false := by decide

theorem pyInt?_intToPyStr (i : Int) : pyInt? (intToPyStr i) = some i := by
  unfold intToPyStr
  by_cases hi : i < 0
  · rw [if_pos hi]
    unfold pyInt?
    have hnw : ∀ c ∈ ('-' :: natDigits i.natAbs : PyStr), wsChar c = false := by
      intro c hc
      rcases List.mem_cons.mp hc with h | h
      · rw [h]; exact wsChar_dash
      · exact natDigits_no_ws _ c h
    rw [pyStrip_noWs hnw]
    simp only [List.head?_cons, List.tail_cons, Option.some.injEq]
    rw [if_pos trivial]
    rw [digitsVal?_natDigits]
    have habs : (Int.ofNat i.natAbs) = -i := Int.ofNat_natAbs_of_nonpos (by omega)
    rw [if_neg (by decide : ¬ ('-' : Char) = '+')]
    show Option.map (fun n => -n) (some ((i.natAbs : Int))) = some i
    rw [Option.map_some', show ((i.natAbs : Int)) = -i from habs, neg_neg]
  · rw [if_neg hi]
    rw [pyInt?_natDigits]
    have habs : (Int.ofNat i.natAbs) = i := Int.natAbs_of_nonneg (by omega)
    rw [habs]

/-! ## Whitespace splitting and joining -/

theorem splitWsAux_word {w : PyStr} (hw : ∀ c ∈ w, wsChar c = false) :
    ∀ (s : PyStr) (acc : List Char),
      splitWsAux (w ++ s) acc = splitWsAux s (w.reverse ++ acc) := by
  induction w with
  | nil => intro s acc; simp
  | cons c w' ih =>
    intro s acc
    have hc : wsChar c = false := hw c (List.mem_cons_self c w')
    show splitWsAux (c :: (w' ++ s)) acc = _
    rw [splitWsAux]
    simp only [hc, Bool.false_eq_true, if_false]
    rw [ih (fun x hx => hw x (List.mem_cons_of_mem c hx)) s (c :: acc)]
    congr 1
    simp

theorem splitWs_single {w : PyStr} (hne : w ≠ [])
    (hw : ∀ c ∈ w, wsChar c = false) : splitWs w = [w] := by
  unfold splitWs
  have := splitWsAux_word hw [] []
  rw [List.append_nil] at this
  rw [this]
  rw [splitWsAux]
  simp [hne]

theorem splitWs_cons_word {w : PyStr} (hne : w ≠ [])
    (hw : ∀ c ∈ w, wsChar c = false) (s : PyStr) :
    splitWs (w ++ ' ' :: s) = w :: splitWs s := by
  unfold splitWs
  rw [splitWsAux_word hw (' ' :: s) []]
  rw [splitWsAux]
  have hsp : wsChar ' ' = true := by decide
  simp only [hsp, if_true, List.append_nil]
  rw [if_neg (by simpa using hne)]
  simp

/-- A whitespace-free nonempty token. -/
def wordTok (t : PyStr) : Prop := t ≠ [] ∧ ∀ c ∈ t, wsChar c = false

theorem splitWs_join : ∀ {ts : List PyStr}, (∀ t ∈ ts, wordTok t) →
    splitWs (joinWithSpace ts) = ts := by
  intro ts
  induction ts with
  | nil => intro _; rfl
  | cons t ts' ih =>
    intro h
    obtain ⟨hne, hnw⟩ := h t (List.mem_cons_self t ts')
    cases ts' with
    | nil =>
      show splitWs t = [t]
      exact splitWs_single hne hnw
    | cons t2 ts'' =>
      show splitWs (t ++ ' ' :: joinWithSpace (t2 :: ts'')) = _
      rw [splitWs_cons_word hne hnw]
      rw [ih (fun x hx => h x (List.mem_cons_of_mem t hx))]

theorem joinWithSpace_ne_nil {t : PyStr} {ts : List PyStr} (hne : t ≠ []) :
    joinWithSpace (t :: ts) ≠ [] := by
  cases ts with
  | nil => exact hne
  | cons t2 ts' =>
    show t ++ ' ' :: joinWithSpace (t2 :: ts') ≠ []
    simp

theorem joinWithSpace_head_mem {t : PyStr} {ts : List PyStr} {c : Char}
    (h : (joinWithSpace (t :: ts)).head? = some c) : c ∈ t ∨ c = ' ' := by
  cases ts with
  | nil => exact Or.inl (List.mem_of_mem_head? h)
  | cons t2 ts' =>
    cases t with
    | nil =>
      simp only [joinWithSpace, List.nil_append, List.head?_cons,
        Option.some.injEq] at h
      exact Or.inr h.symm
    | cons x xs =>
      simp only [joinWithSpace, List.cons_append, List.head?_cons,
        Option.some.injEq] at h
      exact Or.inl (h ▸ List.mem_cons_self x xs)

/-! ## Two-character splitting -/

theorem splitOn2_ne_nil (a b : Char) (l : PyStr) : splitOn2 a b l ≠ [] := by
  match l with
  | [] => simp [splitOn2]
  | [c] => simp [splitOn2]
  | c :: d :: rest =>
    rw [splitOn2]
    split
    · simp
    · cases h : splitOn2 a b (d :: rest) <;> simp

theorem splitOn2_no_occ {a b : Char} {l : PyStr} (h : ∀ c ∈ l, c ≠ a) :
    splitOn2 a b l = [l] := by
  match l with
  | [] => rfl
  | [c] => rfl
  | c :: d :: rest =>
    rw [splitOn2]
    rw [if_neg (by
      intro hcd
      exact h c (List.mem_cons_self _ _) hcd.1)]
    rw [splitOn2_no_occ (fun x hx => h x (List.mem_cons_of_mem c hx))]

theorem splitOn2_append_sep {a b : Char} {xs : PyStr} (ys : PyStr)
    (h : ∀ c ∈ xs, c ≠ a) :
    splitOn2 a b (xs ++ a :: b :: ys) = xs :: splitOn2 a b ys := by
  match xs with
  | [] =>
    show splitOn2 a b (a :: b :: ys) = [] :: splitOn2 a b ys
    rw [splitOn2]
    rw [if_pos ⟨rfl, rfl⟩]
  | [c] =>
    show splitOn2 a b (c :: a :: b :: ys) = [c] :: splitOn2 a b ys
    rw [splitOn2]
    rw [if_neg (by
      intro hcd
      exact h c (List.mem_cons_self _ _) hcd.1)]
    rw [show splitOn2 a b (a :: b :: ys) = [] :: splitOn2 a b ys from by
      rw [splitOn2]; rw [if_pos ⟨rfl, rfl⟩]]
  | c :: c' :: xs' =>
    show splitOn2 a b (c :: c' :: (xs' ++ a :: b :: ys)) = _
    rw [splitOn2]
    rw [if_neg (by
      intro hcd
      exact h c (List.mem_cons_self _ _) hcd.1)]
    have ih := @splitOn2_append_sep a b (c' :: xs') ys
      (fun x hx => h x (List.mem_cons_of_mem c hx))
    rw [show (c' :: xs') ++ a :: b :: ys = c' :: (xs' ++ a :: b :: ys) from rfl] at ih
    rw [ih]

/-! ## The index-range expansion (claims about `_parse_index_list`) -/

/-- Modelled from the spec (§8): the arithmetic sequence
`[a, a+s, a+2s, …]` capped at `b`, for `a ≤ b` and `s ≥ 1`.  Used only to
compare the source's `range`-based expansion against the spec's words. -/
def specArithSeq (a b s : Int) : List Int :=
  (List.range ((b - a).toNat / s.toNat + 1)).map (fun (k : Nat) => a + s * (k : Int))

theorem pyRangeList_eq_specArithSeq {a b s : Int} (hab : a ≤ b) (hs : 1 ≤ s) :
    pyRangeList a (b + 1) s = specArithSeq a b s := by
  unfold pyRangeList specArithSeq
  rw [if_pos (by omega : (0 : Int) < s), if_pos (by omega : a < b + 1)]
  rw [show b + 1 - a - 1 = b - a from by ring]

theorem specArithSeq_length (a b s : Int) :
    (specArithSeq a b s).length = (b - a).toNat / s.toNat + 1 := by
  unfold specArithSeq
  rw [List.length_map, List.length_range]

theorem specArithSeq_getD {a b s : Int} {j : Nat}
    (hj : j < (specArithSeq a b s).length) :
    (specArithSeq a b s).getD j 0 = a + s * j := by
  unfold specArithSeq at hj ⊢
  rw [List.length_map, List.length_range] at hj
  rw [List.getD_eq_getElem?_getD, List.getElem?_map, List.getElem?_range hj]
  rfl

theorem specArithSeq_mem_bounds {a b s x : Int} (hab : a ≤ b) (hs : 1 ≤ s)
    (hx : x ∈ specArithSeq a b s) : a ≤ x ∧ x ≤ b := by
  unfold specArithSeq at hx
  rw [List.mem_map] at hx
  obtain ⟨k, hk, rfl⟩ := hx
  rw [List.mem_range] at hk
  have hkle : k ≤ (b - a).toNat / s.toNat := by omega
  have hs0 : 0 < s.toNat := by omega
  have hmul : k * s.toNat ≤ (b - a).toNat := (Nat.le_div_iff_mul_le hs0).mp hkle
  have hcast : (k : Int) * s ≤ b - a := by
    have h1 : ((k * s.toNat : Nat) : Int) ≤ (((b - a).toNat : Nat) : Int) := by
      exact_mod_cast hmul
    rw [Int.toNat_of_nonneg (by omega : (0 : Int) ≤ b - a)] at h1
    calc (k : Int) * s = ((k * s.toNat : Nat) : Int) := by
          push_cast
          rw [Int.toNat_of_nonneg (by omega : (0 : Int) ≤ s)]
      _ ≤ b - a := h1
  constructor
  · have : 0 ≤ s * (k : Int) := by positivity
    omega
  · have : s * (k : Int) ≤ b - a := by rw [mul_comm]; exact hcast
    omega

theorem isDigit_ne {c x : Char} (hx : x.isDigit = false) (h : c.isDigit = true) :
    c ≠ x := fun he => by rw [he] at h; rw [h] at hx; cases hx

theorem intToPyStr_chars {i : Int} :
    ∀ c ∈ intToPyStr i, c.isDigit = true ∨ c = '-' := by
  intro c hc
  unfold intToPyStr at hc
  by_cases hi : i < 0
  · rw [if_pos hi] at hc
    rcases List.mem_cons.mp hc with h | h
    · exact Or.inr h
    · exact Or.inl (natDigits_all_digits _ c h)
  · rw [if_neg hi] at hc
    exact Or.inl (natDigits_all_digits _ c hc)

theorem intToPyStr_no_ws {i : Int} : ∀ c ∈ intToPyStr i, wsChar c = false := by
  intro c hc
  rcases intToPyStr_chars c hc with h | h
  · exact isDigit_not_ws h
  · rw [h]; exact wsChar_dash

theorem intToPyStr_ne_t {i : Int} : ∀ c ∈ intToPyStr i, c ≠ 't' := by
  intro c hc
  rcases intToPyStr_chars c hc with h | h
  · exact isDigit_ne (by decide) h
  · rw [h]; decide

theorem intToPyStr_ne_b {i : Int} : ∀ c ∈ intToPyStr i, c ≠ 'b' := by
  intro c hc
  rcases intToPyStr_chars c hc with h | h
  · exact isDigit_ne (by decide) h
  · rw [h]; decide

theorem intToPyStr_ne_nil (i : Int) : intToPyStr i ≠ [] := by
  unfold intToPyStr
  split
  · simp
  · exact natDigits_ne_nil _

/-- The canonical `"AtoBbyS"` range token. -/
def rangeByTok (a b s : Int) : PyStr :=
  intToPyStr a ++ pstr "to" ++ intToPyStr b ++ pstr "by" ++ intToPyStr s

/-- The canonical `"AtoB"` range token. -/
def rangeTok (a b : Int) : PyStr :=
  intToPyStr a ++ pstr "to" ++ intToPyStr b

theorem parseIndexToken_rangeBy (acc : List Int) {a b s : Int}
    (hs : s ≠ 0) :
    parseIndexToken acc (rangeByTok a b s) =
      .ok (acc ++ pyRangeList a (b + 1) s) := by
  unfold parseIndexToken rangeByTok
  have hsplit1 : splitOn2 't' 'o' (intToPyStr a ++ pstr "to" ++ intToPyStr b ++
      pstr "by" ++ intToPyStr s) =
      [intToPyStr a, intToPyStr b ++ 'b' :: 'y' :: intToPyStr s] := by
    have he : intToPyStr a ++ pstr "to" ++ intToPyStr b ++ pstr "by" ++
        intToPyStr s =
        intToPyStr a ++ 't' :: 'o' :: (intToPyStr b ++ 'b' :: 'y' :: intToPyStr s) := by
      simp [pstr]
    rw [he, splitOn2_append_sep _ intToPyStr_ne_t]
    rw [splitOn2_no_occ (by
      intro c hc
      rcases List.mem_append.mp hc with h | h
      · exact intToPyStr_ne_t c h
      · rcases List.mem_cons.mp h with h1 | h1
        · rw [h1]; decide
        · rcases List.mem_cons.mp h1 with h2 | h2
          · rw [h2]; decide
          · exact intToPyStr_ne_t c h2)]
  rw [hsplit1]
  have hsplit2 : splitOn2 'b' 'y' (intToPyStr b ++ 'b' :: 'y' :: intToPyStr s) =
      [intToPyStr b, intToPyStr s] := by
    rw [splitOn2_append_sep _ intToPyStr_ne_b]
    rw [splitOn2_no_occ intToPyStr_ne_b]
  have ha := pyInt?_intToPyStr a
  have hb := pyInt?_intToPyStr b
  have hsv := pyInt?_intToPyStr s
  simp only [hsplit2, pyIntE, ha, hb, hsv]
  show (if s = 0 then _ else Except.ok (acc ++ pyRangeList a (b + 1) s)) = _
  rw [if_neg hs]

theorem parseIndexToken_range (acc : List Int) (a b : Int) :
    parseIndexToken acc (rangeTok a b) =
      .ok (acc ++ pyRangeList a (b + 1) 1) := by
  unfold parseIndexToken rangeTok
  have hsplit1 : splitOn2 't' 'o' (intToPyStr a ++ pstr "to" ++ intToPyStr b) =
      [intToPyStr a, intToPyStr b] := by
    have he : intToPyStr a ++ pstr "to" ++ intToPyStr b =
        intToPyStr a ++ 't' :: 'o' :: intToPyStr b := by
      simp [pstr]
    rw [he, splitOn2_append_sep _ intToPyStr_ne_t]
    rw [splitOn2_no_occ intToPyStr_ne_t]
  rw [hsplit1]
  have hsplit2 : splitOn2 'b' 'y' (intToPyStr b) = [intToPyStr b] :=
    splitOn2_no_occ intToPyStr_ne_b
  have ha := pyInt?_intToPyStr a
  have hb := pyInt?_intToPyStr b
  simp only [hsplit2, pyIntE, ha, hb]
  rfl

theorem parseIndexToken_shift (acc : List Int) (t : PyStr) :
    parseIndexToken acc t = (parseIndexToken [] t).map (fun l => acc ++ l) := by
  unfold parseIndexToken
  cases h1 : splitOn2 't' 'o' t with
  | nil => cases h2 : pyInt? t <;> simp [Except.map]
  | cons r0 rs =>
    cases rs with
    | nil => cases h2 : pyInt? t <;> simp [Except.map]
    | cons r1 rest =>
      cases h2 : pyIntE r0 with
      | error e => simp [h2, Except.map, bind, Except.bind]
      | ok v =>
        cases h3 : splitOn2 'b' 'y' r1 with
        | nil =>
          cases h4 : pyIntE r1 with
          | error e => simp [h2, h3, h4, Except.map, bind, Except.bind]
          | ok w => simp [h2, h3, h4, Except.map, bind, Except.bind]
        | cons e0 es =>
          cases es with
          | nil =>
            cases h4 : pyIntE r1 with
            | error e => simp [h2, h3, h4, Except.map, bind, Except.bind]
            | ok w => simp [h2, h3, h4, Except.map, bind, Except.bind]
          | cons e1 rest2 =>
            cases h4 : pyIntE e0 with
            | error e => simp [h2, h3, h4, Except.map, bind, Except.bind]
            | ok w =>
              cases h5 : pyIntE e1 with
              | error e => simp [h2, h3, h4, h5, Except.map, bind, Except.bind]
              | ok u =>
                by_cases hu : u = 0
                · simp [h2, h3, h4, h5, hu, Except.map, bind, Except.bind]
                · simp [h2, h3, h4, h5, hu, Except.map, bind, Except.bind]

theorem parseIndexParts_ok {ts : List PyStr} {exp : PyStr → List Int}
    (h : ∀ t ∈ ts, parseIndexToken [] t = .ok (exp t)) :
    ∀ acc, parseIndexParts acc ts = .ok (acc ++ (ts.map exp).flatten) := by
  induction ts with
  | nil => intro acc; simp [parseIndexParts]
  | cons t ts' ih =>
    intro acc
    have ht := h t (List.mem_cons_self t ts')
    show (do
      let acc' ← parseIndexToken acc t
      parseIndexParts acc' ts') = _
    rw [parseIndexToken_shift, ht]
    show parseIndexParts (acc ++ exp t) ts' = _
    rw [ih (fun x hx => h x (List.mem_cons_of_mem t hx))]
    simp

theorem mem_dropWhile_of_not {p : Char → Bool} {l : PyStr} {c : Char}
    (hc : c ∈ l) (hp : p c = false) : c ∈ l.dropWhile p := by
  induction l with
  | nil => simp at hc
  | cons x xs ih =>
    rw [List.dropWhile_cons]
    by_cases hx : p x
    · rcases List.mem_cons.mp hc with h | h
      · subst h; rw [hx] at hp; cases hp
      · simp only [hx, if_true]; exact ih h
    · simp [hx, hc]

theorem pyStrip_ne_nil_of_mem {l : PyStr} {c : Char} (hc : c ∈ l)
    (hp : wsChar c = false) : pyStrip l ≠ [] := by
  intro h0
  unfold pyStrip at h0
  rw [List.reverse_eq_nil_iff] at h0
  rw [List.dropWhile_eq_nil_iff] at h0
  have h1 : c ∈ (l.dropWhile wsChar).reverse :=
    List.mem_reverse.mpr (mem_dropWhile_of_not hc hp)
  have := h0 c h1
  rw [hp] at this; cases this

theorem splitWs_all_ws : ∀ {l : PyStr}, (∀ c ∈ l, wsChar c = true) →
    splitWs l = [] := by
  intro l
  induction l with
  | nil => intro _; rfl
  | cons x xs ih =>
    intro h
    show splitWsAux (x :: xs) [] = []
    rw [splitWsAux]
    simp only [h x (List.mem_cons_self x xs), if_true, if_pos rfl]
    exact ih (fun c hc => h c (List.mem_cons_of_mem x hc))

theorem pyStrip_nil_all_ws {l : PyStr} (h : pyStrip l = []) :
    ∀ c ∈ l, wsChar c = true := by
  intro c hc
  by_contra hw
  rw [Bool.not_eq_true] at hw
  exact pyStrip_ne_nil_of_mem hc hw h

theorem parseIndexList_single {t : PyStr} (hw : wordTok t) {L : List Int}
    (h : parseIndexToken [] t = .ok L) : parseIndexList t = .ok L := by
  unfold parseIndexList
  rw [if_neg (by
    push_neg
    refine ⟨hw.1, ?_⟩
    rw [pyStrip_noWs hw.2]
    exact hw.1)]
  rw [splitWs_single hw.1 hw.2]
  show (do
    let acc' ← parseIndexToken [] t
    parseIndexParts acc' []) = _
  rw [h]
  rfl

theorem rangeByTok_word (a b s : Int) : wordTok (rangeByTok a b s) := by
  constructor
  · unfold rangeByTok
    intro h
    have h1 := intToPyStr_ne_nil a
    cases he : intToPyStr a with
    | nil => exact h1 he
    | cons x xs => rw [he] at h; simp at h
  · intro c hc
    unfold rangeByTok at hc
    rw [show pstr "to" = ['t', 'o'] from rfl,
        show pstr "by" = ['b', 'y'] from rfl] at hc
    simp only [List.append_assoc, List.cons_append, List.nil_append,
      List.mem_append, List.mem_cons] at hc
    rcases hc with h | h | h | h | h | h | h <;>
      first
        | (subst h; decide)
        | exact intToPyStr_no_ws c h

theorem rangeTok_word (a b : Int) : wordTok (rangeTok a b) := by
  constructor
  · unfold rangeTok
    intro h
    have h1 := intToPyStr_ne_nil a
    cases he : intToPyStr a with
    | nil => exact h1 he
    | cons x xs => rw [he] at h; simp at h
  · intro c hc
    unfold rangeTok at hc
    rw [show pstr "to" = ['t', 'o'] from rfl] at hc
    simp only [List.append_assoc, List.cons_append, List.nil_append,
      List.mem_append, List.mem_cons] at hc
    rcases hc with h | h | h | h <;>
      first
        | (subst h; decide)
        | exact intToPyStr_no_ws c h

/-! ## Claim C3: range-token semantics of the index-expression decoder -/

/-- C3: a token `a to b by s` (with `a ≤ b`, `s ≥ 1`) decodes to exactly the
arithmetic sequence `[a, a+s, a+2s, …]` capped at `b`; a token `a to b`
decodes to `[a, a+1, …, b]`; the spec-side sequence `specArithSeq` starts at
`a`, has `a + s*j` at position `j`, and all members lie in `[a, b]`; and a
multi-token expression decodes to the concatenation of the per-token
expansions in token order, duplicates preserved. -/
theorem c3_index_range_semantics :
    (∀ a b s : Int, a ≤ b → 1 ≤ s →
      parseIndexList (rangeByTok a b s) = .ok (specArithSeq a b s)) ∧
    (∀ a b : Int, a ≤ b →
      parseIndexList (rangeTok a b) = .ok (specArithSeq a b 1)) ∧
    (∀ a b s : Int, a ≤ b → 1 ≤ s →
      (specArithSeq a b s).getD 0 0 = a ∧
      (∀ j, j < (specArithSeq a b s).length →
        (specArithSeq a b s).getD j 0 = a + s * j) ∧
      (∀ x ∈ specArithSeq a b s, a ≤ x ∧ x ≤ b)) ∧
    (∀ (ts : List PyStr) (exp : PyStr → List Int),
      (∀ t ∈ ts, wordTok t) →
      (∀ t ∈ ts, parseIndexToken [] t = .ok (exp t)) →
      parseIndexList (joinWithSpace ts) = .ok ((ts.map exp).flatten)) := by
  refine ⟨?_, ?_, ?_, ?_⟩
  · intro a b s hab hs
    have h := parseIndexToken_rangeBy [] (by omega : s ≠ 0) (a := a) (b := b)
    rw [pyRangeList_eq_specArithSeq hab hs] at h
    exact parseIndexList_single (rangeByTok_word a b s) (by simpa using h)
  · intro a b hab
    have h := parseIndexToken_range [] a b
    rw [pyRangeList_eq_specArithSeq hab (by omega)] at h
    exact parseIndexList_single (rangeTok_word a b) (by simpa using h)
  · intro a b s hab hs
    refine ⟨?_, ?_, fun x hx => specArithSeq_mem_bounds hab hs hx⟩
    · have h0 : 0 < (specArithSeq a b s).length := by
        rw [specArithSeq_length]; exact Nat.succ_pos _
      have := specArithSeq_getD (a := a) (b := b) (s := s) h0
      simpa using this
    · intro j hj
      exact specArithSeq_getD hj
  · intro ts exp hw hok
    cases hts : ts with
    | nil =>
      show parseIndexList [] = _
      simp [parseIndexList]
    | cons t0 ts' =>
      unfold parseIndexList
      rw [if_neg (by
        push_neg
        subst hts
        have h0 := hw t0 (List.mem_cons_self t0 ts')
        refine ⟨joinWithSpace_ne_nil h0.1, ?_⟩
        intro hstrip
        have hall := pyStrip_nil_all_ws hstrip
        cases he : joinWithSpace (t0 :: ts') with
        | nil => exact joinWithSpace_ne_nil h0.1 he
        | cons c cs =>
          have hmem : c ∈ t0 ∨ c = ' ' :=
            joinWithSpace_head_mem (by rw [he]; rfl)
          have hcw : wsChar c = true := hall c (by rw [he]; exact List.mem_cons_self c cs)
          rcases hmem with h | h
          · rw [h0.2 c h] at hcw; cases hcw
          · -- the head of the join is the first token's head, and tokens are
            -- nonempty, so the head cannot be the separator space
            cases ht0 : t0 with
            | nil => exact h0.1 ht0
            | cons x xs =>
              have : (joinWithSpace (t0 :: ts')).head? = some x := by
                cases ts' with
                | nil => rw [ht0]; rfl
                | cons t1 ts'' =>
                  show (t0 ++ ' ' :: joinWithSpace (t1 :: ts'')).head? = some x
                  rw [ht0]; rfl
              rw [he] at this
              simp only [List.head?_cons, Option.some.injEq] at this
              have hxw : wsChar x = false :=
                h0.2 x (by rw [ht0]; exact List.mem_cons_self x xs)
              rw [← this] at hxw
              rw [h] at hxw
              exact absurd hxw (by decide))]
      subst hts
      rw [splitWs_join hw]
      have := parseIndexParts_ok hok []
      simpa using this

/-- C3 witness: `"10to20by5"` → `[10, 15, 20]` and `"3to6"` → `[3, 4, 5, 6]`,
by the range-semantics theorem applied at `(10, 20, 5)` and `(3, 6)`. -/
theorem c3_witness :
    parseIndexList (pstr "10to20by5") = .ok [10, 15, 20] ∧
    parseIndexList (pstr "3to6") = .ok [3, 4, 5, 6] := by
  constructor
  · have h := c3_index_range_semantics.1 10 20 5 (by decide) (by decide)
    rw [show pstr "10to20by5" = rangeByTok 10 20 5 from by decide]
    rw [h, show specArithSeq 10 20 5 = [10, 15, 20] from by decide]
  · have h := c3_index_range_semantics.2.1 3 6 (by decide)
    rw [show pstr "3to6" = rangeTok 3 6 from by decide]
    rw [h, show specArithSeq 3 6 1 = [3, 4, 5, 6] from by decide]

/-! ## Claim C2: error behaviour of the index-expression decoder -/

/-- C2 (amended): the index-expression decoder returns `[]` for blank input,
and never raises on an input none of whose whitespace-separated tokens
contains the substring `"to"`: each such token contributes its integer value
when it is one, and is silently ignored otherwise (in particular
`"1 abc 2"` → `[1, 2]`).  (A token containing `"to"` whose pieces fail
integer conversion makes the decoder raise, see the counterexample.) -/
theorem c2_index_list_no_raise :
    (∀ text : PyStr, pyStrip text = [] → parseIndexList text = .ok []) ∧
    (∀ text : PyStr,
      (∀ t ∈ splitWs text, (splitOn2 't' 'o' t).length = 1) →
      parseIndexList text =
        .ok (((splitWs text).map (fun t =>
          match pyInt? t with
          | some v => [v]
          | none => [])).flatten)) ∧
    parseIndexList (pstr "1 abc 2") = .ok [1, 2] := by
  refine ⟨?_, ?_, by decide⟩
  · intro text h
    unfold parseIndexList
    rw [if_pos (Or.inr h)]
  · intro text h
    have hok : ∀ t ∈ splitWs text,
        parseIndexToken [] t = .ok (match pyInt? t with
          | some v => [v]
          | none => []) := by
      intro t ht
      have hlen := h t ht
      unfold parseIndexToken
      cases hs : splitOn2 't' 'o' t with
      | nil => cases hv : pyInt? t <;> simp
      | cons r0 rs =>
        cases rs with
        | nil => cases hv : pyInt? t <;> simp
        | cons r1 rest => rw [hs] at hlen; simp at hlen
    by_cases hblank : text = [] ∨ pyStrip text = []
    · have hsw : splitWs text = [] := by
        rcases hblank with h0 | h0
        · rw [h0]; rfl
        · exact splitWs_all_ws (pyStrip_nil_all_ws h0)
      unfold parseIndexList
      rw [if_pos hblank, hsw]
      rfl
    · unfold parseIndexList
      rw [if_neg hblank]
      have := parseIndexParts_ok hok []
      simpa using this

/-- C2 counterexample: on the input `"too"` the decoder raises a
`ValueError` (the token contains `"to"`, splits into `["", "o"]`, and
`int('')` fails), so the decoder does not satisfy "never raises for any
input string". -/
theorem c2_counterexample :
    parseIndexList (pstr "too") = .error (intValueErrorMsg []) := by decide

/-! ## Claims C8 and C5: EIGEN-CTRL and SELFWEIGHT decoding -/

/-- C8: an `EIGEN-CTRL` block whose only data row is `"10 100"` produces no
record and exactly one error entry (the insufficient-parameters message),
carrying the data row's line number; concretely, parsing the two-line
document gives a model with no commands and exactly that error. -/
theorem c8_eigen_insufficient_params :
    (∀ (m : Model) (h0 : PyStr) (n0 n1 : Nat) (nt : List Nat),
      parseEigenCtrlD [h0, pstr "10 100"] (n0 :: n1 :: nt) m =
        (m.addError (eigenInsufficientMsg n1), none) ∧
      (m.addError (eigenInsufficientMsg n1)).commands = m.commands ∧
      (m.addError (eigenInsufficientMsg n1)).errors =
        m.errors ++ [eigenInsufficientMsg n1]) ∧
    parseText theTable (pstr "*EIGEN-CTRL\n10 100") =
      .ok ⟨[], [eigenInsufficientMsg 2], []⟩ := by
  constructor
  · intro m h0 n0 n1 nt
    refine ⟨?_, rfl, rfl⟩
    unfold parseEigenCtrlD
    rw [if_neg (by simp : ¬([h0, pstr "10 100"] : List PyStr).length < 2)]
    simp only [List.getElem?_cons_succ, List.getElem?_cons_zero]
    rw [show splitWs (pyStrip (pstr "10 100")) = [['1', '0'], ['1', '0', '0']]
      from by decide]
    rw [if_pos (by simp : ([['1', '0'], ['1', '0', '0']] : List PyStr).length < 3)]
  · rfl

/-- C5 counterexample: an `EIGEN-CTRL` data row whose required fields are
valid but whose optional `shift` field is the non-numeric `abc` yields no
`EIGEN-CTRL` record, only an error — the documented optional-field default
is not applied. -/
theorem c5_counterexample :
    (parseEigenCtrlD [pstr "*EIGEN-CTRL", pstr "10 100 1.0E-6 LANC abc"]
        [1, 2] Model.empty).1.commands = [] ∧
    (parseEigenCtrlD [pstr "*EIGEN-CTRL", pstr "10 100 1.0E-6 LANC abc"]
        [1, 2] Model.empty).1.errors =
      [eigenValueErrMsg (floatValueErrorMsg (pstr "abc"))] ∧
    (parseEigenCtrlD [pstr "*EIGEN-CTRL", pstr "10 100 1.0E-6 LANC abc"]
        [1, 2] Model.empty).2 = none := by
  exact ⟨rfl, rfl, rfl⟩

theorem parseEigenRow_bad_shift {t0 t1 t2 t3 t4 : PyStr} {ts : List PyStr}
    (h0 : (pyInt? t0).isSome) (h1 : (pyInt? t1).isSome)
    (h2 : isPyFloat t2 = true) (h4 : isPyFloat t4 = false) :
    parseEigenRow (t0 :: t1 :: t2 :: t3 :: t4 :: ts) =
      .error (floatValueErrorMsg t4) := by
  obtain ⟨v0, hv0⟩ := Option.isSome_iff_exists.mp h0
  obtain ⟨v1, hv1⟩ := Option.isSome_iff_exists.mp h1
  have hl3 : (t0 :: t1 :: t2 :: t3 :: t4 :: ts : List PyStr).length > 3 := by
    simp
  have hl4 : (t0 :: t1 :: t2 :: t3 :: t4 :: ts : List PyStr).length > 4 := by
    simp
  simp only [parseEigenRow, List.getD_cons_zero, List.getD_cons_succ, pyIntE,
    hv0, hv1, pyFloatE, h2, h4, hl3, hl4, if_true, Bool.false_eq_true,
    if_false, bind, Except.bind]

/-- C5 (amended): the two cited decoders treat optional-field conversion
failures differently.  `EIGEN-CTRL` parses the optional tail inside the same
`try` as the required fields, so a non-numeric optional `shift` aborts the
whole record with one logged error and no `EIGEN-CTRL` record (first
conjunct).  `SELFWEIGHT` really does apply the documented default: once the
length guards pass it always stores a record, any factor that fails float
conversion becoming `0.0` and converting factors keeping their value (second
conjunct). -/
theorem c5_optional_field_policy :
    (∀ (m : Model) (h0 l1 : PyStr) (nums : List Nat) (t0 t1 t2 t3 t4 : PyStr)
        (ts : List PyStr),
      splitWs (pyStrip l1) = t0 :: t1 :: t2 :: t3 :: t4 :: ts →
      (pyInt? t0).isSome → (pyInt? t1).isSome → isPyFloat t2 = true →
      isPyFloat t4 = false →
      parseEigenCtrlD [h0, l1] nums m =
        (m.addError (eigenValueErrMsg (floatValueErrorMsg t4)), none)) ∧
    (∀ (m : Model) (h0 l1 : PyStr) (nums : List Nat) (ps : List PyStr),
      splitWs (pyStrip l1) = ps → ps ≠ [] →
      ∃ factors opts,
        parseSelfWeightD [h0, l1] nums m =
          (m.addCommand (pstr "SELFWEIGHT")
            (.selfWeight factors opts [h0, l1] nums), none) ∧
        factors.length = 3 ∧
        (∀ j, j < min 3 ps.length → isPyFloat (ps.getD j []) = false →
          factors.getD j [] = pstr "0.0") ∧
        (∀ j, j < min 3 ps.length → isPyFloat (ps.getD j []) = true →
          factors.getD j [] = pyStrip (ps.getD j []))) := by
  constructor
  · intro m h0 l1 nums t0 t1 t2 t3 t4 ts hsplit hi0 hi1 hf2 hf4
    unfold parseEigenCtrlD
    rw [if_neg (by simp : ¬([h0, l1] : List PyStr).length < 2)]
    simp only [List.getElem?_cons_succ, List.getElem?_cons_zero]
    rw [hsplit]
    rw [if_neg (by simp : ¬(t0 :: t1 :: t2 :: t3 :: t4 :: ts :
      List PyStr).length < 3)]
    rw [parseEigenRow_bad_shift hi0 hi1 hf2 hf4]
  · intro m h0 l1 nums ps hsplit hne
    refine ⟨(ps.take 3).map
        (fun p => if isPyFloat p then pyStrip p else pstr "0.0") ++
      List.replicate (3 - ((ps.take 3).map
        (fun p => if isPyFloat p then pyStrip p else pstr "0.0")).length)
        (pstr "0.0"), ?_, ?_, ?_, ?_, ?_⟩
    · exact if ps.length > 3 then
        let optionsStr := joinWithSpace (ps.drop 3)
        (match reSearchKeyEq (pstr "GROUP") optionsStr with
         | some w => [(pstr "group", OptV.s w)]
         | none => []) ++
        (match reSearchKeyEq (pstr "ACTIVE") optionsStr with
         | some w => [(pstr "active", OptV.s w)]
         | none => [])
      else []
    · unfold parseSelfWeightD
      rw [if_neg (by simp : ¬([h0, l1] : List PyStr).length < 2)]
      simp only [List.getElem?_cons_succ, List.getElem?_cons_zero]
      rw [hsplit]
      rw [if_neg (by
        cases ps with
        | nil => exact absurd rfl hne
        | cons p ps' => simp)]
    · rw [List.length_append, List.length_replicate, List.length_map,
        List.length_take]
      omega
    · intro j hj hf
      rw [List.getD_eq_getElem?_getD, List.getElem?_append,
        if_pos (by rw [List.length_map, List.length_take]; omega),
        List.getElem?_map]
      rw [List.getElem?_take, if_pos (by omega)]
      have hjs : j < ps.length := by omega
      rw [List.getElem?_eq_getElem hjs]
      simp only [Option.map_some', Option.getD_some]
      have hg : ps[j] = ps.getD j [] := by
        rw [List.getD_eq_getElem?_getD, List.getElem?_eq_getElem hjs]
        rfl
      rw [hg, hf]
      simp
    · intro j hj hf
      rw [List.getD_eq_getElem?_getD, List.getElem?_append,
        if_pos (by rw [List.length_map, List.length_take]; omega),
        List.getElem?_map]
      rw [List.getElem?_take, if_pos (by omega)]
      have hjs : j < ps.length := by omega
      rw [List.getElem?_eq_getElem hjs]
      simp only [Option.map_some', Option.getD_some]
      have hg : ps[j] = ps.getD j [] := by
        rw [List.getD_eq_getElem?_getD, List.getElem?_eq_getElem hjs]
        rfl
      rw [hg, hf]
      simp

/-! ## Claims C6 and C10: the BSTEMPER two-state machine -/

/-- A `BSTEMPER` element-header row that parses to `d`. -/
abbrev validBstHeaderRow (hr : PyStr) (d : ElemTemper) : Prop :=
  pyStrip hr ≠ [] ∧
  (pstr "INPUT").isPrefixOf (pyStrip hr) = false ∧
  ((splitChar ',' (pyStrip hr)).map pyStrip).length ≥ 5 ∧
  parseBstHeader ((splitChar ',' (pyStrip hr)).map pyStrip) = .ok d

/-- A `BSTEMPER` nested `INPUT` row that parses to `sec`. -/
abbrev validBstInputRow (r : PyStr) (sec : TempSection) : Prop :=
  pyStrip r ≠ [] ∧
  (pstr "INPUT").isPrefixOf (pyStrip r) = true ∧
  (splitWs (pyStrip r)).length ≥ 8 ∧
  parseBstInput ((splitWs (pyStrip r)).drop 1) = .ok sec

theorem parseBstHeader_sections {ps : List PyStr} {d : ElemTemper}
    (h : parseBstHeader ps = .ok d) : d.sections = [] := by
  unfold parseBstHeader at h
  cases h0 : pyIntE (ps.getD 0 []) with
  | error e => rw [h0] at h; simp [bind, Except.bind] at h
  | ok v0 =>
    cases h3 : pyIntE (ps.getD 3 []) with
    | error e => rw [h0, h3] at h; simp [bind, Except.bind] at h
    | ok v3 =>
      rw [h0, h3] at h
      simp only [bind, Except.bind, pure, Except.pure, Except.ok.injEq] at h
      rw [← h]

/-- `bstStep` on a valid element-header row: whatever element was in
progress is overwritten (the silent-discard behaviour of
`load_parsers.py:192-227`: the incomplete `current_element_data` is
replaced, never emitted or logged). -/
theorem bstStep_header {hr : PyStr} {d : ElemTemper}
    (h : validBstHeaderRow hr d) (i : Nat) (nums : List Nat)
    (cur : Option ElemTemper) (temps : List ElemTemper) (m : Model) :
    bstStep i nums hr cur temps m = .ok (some d, temps, m) := by
  obtain ⟨h1, h2, h3, h4⟩ := h
  simp only [bstStep, if_neg h1, pyStrip_idem, h2, Bool.false_eq_true,
    not_false_iff, if_true]
  rw [if_neg (by omega : ¬((splitChar ',' (pyStrip hr)).map pyStrip).length < 5)]
  rw [h4]

/-- `bstStep` on a valid `INPUT` row: the section is appended to the
in-progress element, which is finalized exactly when the declared count is
reached (`load_parsers.py:233-279`). -/
theorem bstStep_input {r : PyStr} {sec : TempSection}
    (h : validBstInputRow r sec) (i : Nat) (nums : List Nat) (d : ElemTemper)
    (temps : List ElemTemper) (m : Model) :
    bstStep i nums r (some d) temps m =
      if ((d.sections ++ [sec]).length : Int) = d.numSections then
        .ok (none, temps ++ [{ d with sections := d.sections ++ [sec] }], m)
      else
        .ok (some { d with sections := d.sections ++ [sec] }, temps, m) := by
  obtain ⟨h1, h2, h3, h4⟩ := h
  simp only [bstStep, if_neg h1, pyStrip_idem, h2, not_true, Bool.true_eq_false,
    if_false]
  rw [if_neg (by omega : ¬(splitWs (pyStrip r)).length < 8)]
  rw [h4]

theorem bstLoop_nil (i : Nat) (nums : List Nat) (cur : Option ElemTemper)
    (temps : List ElemTemper) (m : Model) :
    bstLoop [] i nums cur temps m = .ok (temps, cur, m) := rfl

theorem bstLoop_cons (l0 : PyStr) (rest : List PyStr) (i : Nat)
    (nums : List Nat) (cur : Option ElemTemper) (temps : List ElemTemper)
    (m : Model) :
    bstLoop (l0 :: rest) i nums cur temps m =
      match bstStep i nums l0 cur temps m with
      | .error em => .error em
      | .ok (cur', temps', m') => bstLoop rest (i + 1) nums cur' temps' m' := rfl

/-- Processing a run of valid `INPUT` rows that stays strictly below the
declared section count: all sections are collected into the in-progress
element and nothing is emitted or logged. -/
theorem bstLoop_inputs_below {rows : List PyStr} {secs : List TempSection}
    (hf : List.Forall₂ validBstInputRow rows secs) :
    ∀ (rest : List PyStr) (i : Nat) (nums : List Nat) (d : ElemTemper)
      (temps : List ElemTemper) (m : Model),
      ((d.sections.length + secs.length : Int) < d.numSections) →
      bstLoop (rows ++ rest) i nums (some d) temps m =
        bstLoop rest (i + rows.length) nums
          (some { d with sections := d.sections ++ secs }) temps m := by
  induction hf with
  | nil =>
    intro rest i nums d temps m hlt
    simp
  | @cons r sec rows' secs' hr hrs ih =>
    intro rest i nums d temps m hlt
    rw [List.cons_append, bstLoop_cons, bstStep_input hr]
    rw [if_neg (by
      simp only [List.length_cons] at hlt
      simp only [List.length_append, List.length_cons, List.length_nil]
      push_cast at hlt ⊢
      omega)]
    show bstLoop (rows' ++ rest) (i + 1) nums
      (some { d with sections := d.sections ++ [sec] }) temps m = _
    rw [ih rest (i + 1) nums _ temps m (by
      simp only [List.length_cons] at hlt
      simp only [List.length_append, List.length_cons, List.length_nil]
      push_cast at hlt ⊢
      omega)]
    rw [List.append_assoc, List.singleton_append,
      show i + 1 + rows'.length = i + (r :: rows').length from by
        simp only [List.length_cons]; omega]

/-- Processing a run of valid `INPUT` rows that exactly reaches the declared
section count: the element is finalized into the output list and the machine
returns to the header state. -/
theorem bstLoop_inputs_finish {rows : List PyStr} {secs : List TempSection}
    (hf : List.Forall₂ validBstInputRow rows secs) :
    ∀ (rest : List PyStr) (i : Nat) (nums : List Nat) (d : ElemTemper)
      (temps : List ElemTemper) (m : Model),
      secs ≠ [] →
      ((d.sections.length + secs.length : Int) = d.numSections) →
      bstLoop (rows ++ rest) i nums (some d) temps m =
        bstLoop rest (i + rows.length) nums none
          (temps ++ [{ d with sections := d.sections ++ secs }]) m := by
  induction hf with
  | nil => intro rest i nums d temps m hne _; exact absurd rfl hne
  | @cons r sec rows' secs' hr hrs ih =>
    intro rest i nums d temps m _ heq
    rw [List.cons_append, bstLoop_cons, bstStep_input hr]
    cases secs' with
    | nil =>
      have hrows' : rows' = [] := by cases hrs; rfl
      subst hrows'
      rw [if_pos (by
        simp only [List.length_cons, List.length_nil] at heq
        simp only [List.length_append, List.length_cons, List.length_nil]
        push_cast at heq ⊢
        omega)]
      show bstLoop ([] ++ rest) (i + 1) nums none
        (temps ++ [{ d with sections := d.sections ++ [sec] }]) m = _
      simp
    | cons s2 secs'' =>
      rw [if_neg (by
        simp only [List.length_cons] at heq
        simp only [List.length_append, List.length_cons, List.length_nil]
        push_cast at heq ⊢
        omega)]
      show bstLoop (rows' ++ rest) (i + 1) nums
        (some { d with sections := d.sections ++ [sec] }) temps m = _
      rw [ih rest (i + 1) nums _ temps m (by simp) (by
        simp only [List.length_cons] at heq
        simp only [List.length_append, List.length_cons, List.length_nil]
        push_cast at heq ⊢
        omega)]
      rw [List.append_assoc, List.singleton_append,
        show i + 1 + rows'.length = i + (r :: rows').length from by
          simp only [List.length_cons]; omega]

/-- C6 (amended): a `BSTEMPER` block whose final element-header row declares
more sections than the number of following valid `INPUT` rows, *with at
least one `INPUT` row collected*, yields exactly one partial record with the
collected sections plus exactly one shortfall error, and does not raise.
(With zero collected rows the element is dropped without a record or an
error — see the counterexample.) -/
theorem c6_bstemper_partial_record :
    ∀ (m : Model) (h0 hr : PyStr) (rows : List PyStr) (secs : List TempSection)
      (d : ElemTemper) (nums : List Nat),
      validBstHeaderRow hr d →
      List.Forall₂ validBstInputRow rows secs →
      secs ≠ [] →
      ((secs.length : Int) < d.numSections) →
      parseBsTemperD (h0 :: hr :: rows) nums m =
        ((m.addError (bstShortfallMsg d.elemId d.numSections secs.length)).addCommand
          (pstr "BSTEMPER")
          (.bsTemper [{ d with sections := secs }] (h0 :: hr :: rows) nums),
          none) := by
  intro m h0 hr rows secs d nums hh hf hne hlt
  have hdsec : d.sections = [] := parseBstHeader_sections hh.2.2.2
  have hfin : bstLoop (hr :: rows) 1 nums none [] m =
      .ok ([], some { d with sections := secs }, m) := by
    rw [bstLoop_cons, bstStep_header hh]
    show bstLoop rows 2 nums (some d) [] m = _
    have hp := bstLoop_inputs_below hf [] 2 nums d [] m (by
      rw [hdsec]; simpa using hlt)
    rw [List.append_nil] at hp
    rw [hp, bstLoop_nil, hdsec, List.nil_append]
  have hbf : bstFinish (some { d with sections := secs }) [] m =
      ([{ d with sections := secs }],
        m.addError (bstShortfallMsg d.elemId d.numSections secs.length)) := by
    unfold bstFinish
    dsimp only
    rw [if_pos hne, if_pos hlt]
    rfl
  unfold parseBsTemperD
  rw [show (h0 :: hr :: rows).drop 1 = hr :: rows from rfl, hfin]
  show (let (temps2, m2) := bstFinish (some { d with sections := secs }) [] m
    (m2.addCommand (pstr "BSTEMPER")
      (.bsTemper temps2 (h0 :: hr :: rows) nums), none)) = _
  rw [hbf]

/-- C6 counterexample: a `BSTEMPER` block whose final (only) element header
declares 3 sections but is followed by zero `INPUT` rows yields *no* partial
record and *no* shortfall error, contradicting the claim for the
zero-collected case. -/
theorem c6_counterexample :
    parseText theTable (pstr "*BSTEMPER\n1, LX, Top, 3, g") =
      .ok ⟨[(pstr "BSTEMPER",
        .bsTemper [] [pstr "*BSTEMPER", pstr "1, LX, Top, 3, g"] [1, 2])],
        [], []⟩ := by decide

/-- C6 witness: a concrete block declaring 3 sections with only 2 valid
`INPUT` rows yields one partial record (2 sections) and one shortfall
error, via the partial-record theorem. -/
theorem c6_witness :
    parseBsTemperD
        [pstr "*BSTEMPER", pstr "1, LX, Top, 3, g, YES",
          pstr "INPUT T1 2.0e5 1.2e-5 0.5 0.1 10 0.2 20",
          pstr "INPUT T1 2.0e5 1.2e-5 0.5 0.1 10 0.2 20"]
        [1, 2, 3, 4] Model.empty =
      ((Model.empty.addError (bstShortfallMsg 1 3 2)).addCommand
        (pstr "BSTEMPER")
        (.bsTemper
          [{ elemId := 1, direction := pstr "LX", refPoint := pstr "Top",
             numSections := 3, group := pstr "g", isPsc := true,
             sections := [⟨pstr "T1", pstr "2.0e5", pstr "1.2e-5", pstr "0.5",
               pstr "0.1", pstr "10", pstr "0.2", pstr "20"⟩,
               ⟨pstr "T1", pstr "2.0e5", pstr "1.2e-5", pstr "0.5",
               pstr "0.1", pstr "10", pstr "0.2", pstr "20"⟩] }]
          [pstr "*BSTEMPER", pstr "1, LX, Top, 3, g, YES",
            pstr "INPUT T1 2.0e5 1.2e-5 0.5 0.1 10 0.2 20",
            pstr "INPUT T1 2.0e5 1.2e-5 0.5 0.1 10 0.2 20"]
          [1, 2, 3, 4]), none) :=
  c6_bstemper_partial_record Model.empty
    (pstr "*BSTEMPER") (pstr "1, LX, Top, 3, g, YES")
    [pstr "INPUT T1 2.0e5 1.2e-5 0.5 0.1 10 0.2 20",
      pstr "INPUT T1 2.0e5 1.2e-5 0.5 0.1 10 0.2 20"]
    [⟨pstr "T1", pstr "2.0e5", pstr "1.2e-5", pstr "0.5", pstr "0.1",
      pstr "10", pstr "0.2", pstr "20"⟩,
      ⟨pstr "T1", pstr "2.0e5", pstr "1.2e-5", pstr "0.5", pstr "0.1",
      pstr "10", pstr "0.2", pstr "20"⟩]
    { elemId := 1, direction := pstr "LX", refPoint := pstr "Top",
      numSections := 3, group := pstr "g", isPsc := true, sections := [] }
    [1, 2, 3, 4]
    (by decide)
    (List.Forall₂.cons (by decide)
      (List.Forall₂.cons (by decide) List.Forall₂.nil))
    (by decide) (by decide)

/-- C10: the BSTEMPER decoder's incomplete-element policies.  (i) If a new
element-header row arrives while the previous element has collected fewer
`INPUT` rows than declared, the incomplete element is silently discarded:
the final record contains only the later element and no error is logged.
(ii) An incomplete element with zero collected `INPUT` rows at end of block
produces neither an element record nor a shortfall error. -/
theorem c10_bstemper_incomplete_policy :
    (∀ (m : Model) (h0 hr1 : PyStr) (rows1 : List PyStr)
        (secs1 : List TempSection) (d1 : ElemTemper) (hr2 : PyStr)
        (rows2 : List PyStr) (secs2 : List TempSection) (d2 : ElemTemper)
        (nums : List Nat),
      validBstHeaderRow hr1 d1 →
      List.Forall₂ validBstInputRow rows1 secs1 →
      ((secs1.length : Int) < d1.numSections) →
      validBstHeaderRow hr2 d2 →
      List.Forall₂ validBstInputRow rows2 secs2 →
      secs2 ≠ [] →
      ((secs2.length : Int) = d2.numSections) →
      parseBsTemperD (h0 :: hr1 :: (rows1 ++ hr2 :: rows2)) nums m =
        (m.addCommand (pstr "BSTEMPER")
          (.bsTemper [{ d2 with sections := secs2 }]
            (h0 :: hr1 :: (rows1 ++ hr2 :: rows2)) nums), none)) ∧
    (∀ (m : Model) (h0 hr : PyStr) (d : ElemTemper) (nums : List Nat),
      validBstHeaderRow hr d → 0 < d.numSections →
      parseBsTemperD [h0, hr] nums m =
        (m.addCommand (pstr "BSTEMPER") (.bsTemper [] [h0, hr] nums), none)) := by
  constructor
  · intro m h0 hr1 rows1 secs1 d1 hr2 rows2 secs2 d2 nums hh1 hf1 hlt1 hh2 hf2
      hne2 heq2
    have hd1 : d1.sections = [] := parseBstHeader_sections hh1.2.2.2
    have hd2 : d2.sections = [] := parseBstHeader_sections hh2.2.2.2
    have hfin : bstLoop (hr1 :: (rows1 ++ hr2 :: rows2)) 1 nums none [] m =
        .ok ([{ d2 with sections := secs2 }], none, m) := by
      rw [bstLoop_cons, bstStep_header hh1]
      show bstLoop (rows1 ++ hr2 :: rows2) 2 nums (some d1) [] m = _
      rw [bstLoop_inputs_below hf1 (hr2 :: rows2) 2 nums d1 [] m (by
        rw [hd1]; simpa using hlt1)]
      rw [bstLoop_cons, bstStep_header hh2]
      show bstLoop rows2 (2 + rows1.length + 1) nums (some d2) [] m = _
      have hp := bstLoop_inputs_finish hf2 [] (2 + rows1.length + 1) nums d2
        [] m hne2 (by rw [hd2]; simpa using heq2)
      rw [List.append_nil] at hp
      rw [hp, bstLoop_nil, hd2]
      simp only [List.nil_append]
    unfold parseBsTemperD
    rw [show (h0 :: hr1 :: (rows1 ++ hr2 :: rows2)).drop 1 =
      hr1 :: (rows1 ++ hr2 :: rows2) from rfl, hfin]
    rfl
  · intro m h0 hr d nums hh hpos
    have hfin : bstLoop [hr] 1 nums none [] m = .ok ([], some d, m) := by
      rw [bstLoop_cons, bstStep_header hh]
      show bstLoop [] 2 nums (some d) [] m = _
      rw [bstLoop_nil]
    have hd : d.sections = [] := parseBstHeader_sections hh.2.2.2
    have hbf : bstFinish (some d) [] m = ([], m) := by
      unfold bstFinish
      dsimp only
      rw [if_neg (by rw [hd]; simp)]
    unfold parseBsTemperD
    rw [show ([h0, hr] : List PyStr).drop 1 = [hr] from rfl, hfin]
    show (let (temps2, m2) := bstFinish (some d) [] m
      (m2.addCommand (pstr "BSTEMPER") (.bsTemper temps2 [h0, hr] nums), none)) = _
    rw [hbf]

/-- C10 witness: concretely, a 3-section header followed by one `INPUT` row
and then a complete 1-section element yields only the second element and no
error; and a lone 3-section header with no `INPUT` rows yields an empty
temperature list and no error. -/
theorem c10_witness :
    parseBsTemperD
        [pstr "*BSTEMPER", pstr "1, LX, Top, 3, g",
          pstr "INPUT T1 2.0e5 1.2e-5 0.5 0.1 10 0.2 20",
          pstr "2, LY, Bot, 1, h",
          pstr "INPUT T2 2.0e5 1.2e-5 0.5 0.1 10 0.2 20"]
        [1, 2, 3, 4, 5] Model.empty =
      (Model.empty.addCommand (pstr "BSTEMPER")
        (.bsTemper
          [{ elemId := 2, direction := pstr "LY", refPoint := pstr "Bot",
             numSections := 1, group := pstr "h", isPsc := false,
             sections := [⟨pstr "T2", pstr "2.0e5", pstr "1.2e-5", pstr "0.5",
               pstr "0.1", pstr "10", pstr "0.2", pstr "20"⟩] }]
          [pstr "*BSTEMPER", pstr "1, LX, Top, 3, g",
            pstr "INPUT T1 2.0e5 1.2e-5 0.5 0.1 10 0.2 20",
            pstr "2, LY, Bot, 1, h",
            pstr "INPUT T2 2.0e5 1.2e-5 0.5 0.1 10 0.2 20"]
          [1, 2, 3, 4, 5]), none) ∧
    parseBsTemperD [pstr "*BSTEMPER", pstr "1, LX, Top, 3, g"] [1, 2]
        Model.empty =
      (Model.empty.addCommand (pstr "BSTEMPER")
        (.bsTemper [] [pstr "*BSTEMPER", pstr "1, LX, Top, 3, g"] [1, 2]),
        none) := by
  constructor
  · exact c10_bstemper_incomplete_policy.1 Model.empty
      (pstr "*BSTEMPER") (pstr "1, LX, Top, 3, g")
      [pstr "INPUT T1 2.0e5 1.2e-5 0.5 0.1 10 0.2 20"]
      [⟨pstr "T1", pstr "2.0e5", pstr "1.2e-5", pstr "0.5", pstr "0.1",
        pstr "10", pstr "0.2", pstr "20"⟩]
      { elemId := 1, direction := pstr "LX", refPoint := pstr "Top",
        numSections := 3, group := pstr "g", isPsc := false, sections := [] }
      (pstr "2, LY, Bot, 1, h")
      [pstr "INPUT T2 2.0e5 1.2e-5 0.5 0.1 10 0.2 20"]
      [⟨pstr "T2", pstr "2.0e5", pstr "1.2e-5", pstr "0.5", pstr "0.1",
        pstr "10", pstr "0.2", pstr "20"⟩]
      { elemId := 2, direction := pstr "LY", refPoint := pstr "Bot",
        numSections := 1, group := pstr "h", isPsc := false, sections := [] }
      [1, 2, 3, 4, 5]
      (by decide)
      (List.Forall₂.cons (by decide) List.Forall₂.nil)
      (by decide)
      (by decide)
      (List.Forall₂.cons (by decide) List.Forall₂.nil)
      (by decide) (by decide)
  · exact c10_bstemper_incomplete_policy.2 Model.empty
      (pstr "*BSTEMPER") (pstr "1, LX, Top, 3, g")
      { elemId := 1, direction := pstr "LX", refPoint := pstr "Top",
        numSections := 3, group := pstr "g", isPsc := false, sections := [] }
      [1, 2] (by decide) (by decide)

/-! ## Claim C7: synthesized `TS-GROUP_<n>` keys -/

theorem natDigits_inj {a b : Nat} (h : natDigits a = natDigits b) : a = b := by
  have ha := digitsVal?_natDigits a
  have hb := digitsVal?_natDigits b
  rw [h, hb] at ha
  exact (Option.some.injEq _ _).mp ha.symm

theorem tsGroupKey_inj {a b : Nat} (h : tsGroupKey a = tsGroupKey b) : a = b := by
  unfold tsGroupKey at h
  exact natDigits_inj (List.append_cancel_left h)

theorem tsGroupKey_prefixed (n : Nat) :
    (pstr "TS-GROUP").isPrefixOf (tsGroupKey n) = true := by
  unfold tsGroupKey
  rw [show (pstr "TS-GROUP_" : PyStr) = pstr "TS-GROUP" ++ ['_'] from by decide]
  rw [List.append_assoc]
  exact List.isPrefixOf_iff_prefix.mpr (List.prefix_append _ _)

/-- A decodable `TS-GROUP` data row: non-blank, not a comment, not a
`*TS-GROUP` header, at least seven comma-separated fields, and an element
list whose expansion does not raise. -/
abbrev validTsRow (r : PyStr) : Prop :=
  pyStrip r ≠ [] ∧
  (pstr ";").isPrefixOf (pyStrip r) = false ∧
  (pstr "*TS-GROUP").isPrefixOf (pyStrip r) = false ∧
  ((splitChar ',' (pyStrip ((pyStrip r).filter (· ≠ '\\')))).map pyStrip).length ≥ 7 ∧
  (parseElementList
    (((splitChar ',' (pyStrip ((pyStrip r).filter (· ≠ '\\')))).map pyStrip).getD 1 [])).toOption.isSome = true

theorem parseTsGroupLine_valid {r : PyStr} (h : validTsRow r) (m : Model)
    (n : Nat) :
    ∃ rec, parseTsGroupLine m (pyStrip r) n = (m, some rec) := by
  obtain ⟨h1, h2, h3, h4, h5⟩ := h
  simp only [parseTsGroupLine]
  rw [if_neg (by omega :
    ¬((splitChar ',' (pyStrip ((pyStrip r).filter (· ≠ '\\')))).map pyStrip).length < 7)]
  cases he : parseElementList
      (((splitChar ',' (pyStrip ((pyStrip r).filter (· ≠ '\\')))).map pyStrip).getD 1 []) with
  | error e => rw [he] at h5; simp [Except.toOption] at h5
  | ok elems =>
    exact ⟨_, rfl⟩

theorem dictLookup_eq_none_iff {V : Type} {d : Dict V} {k : PyStr} :
    dictLookup d k = none ↔ ∀ p ∈ d, ¬ p.1 = k := by
  unfold dictLookup
  rw [Option.map_eq_none', List.find?_eq_none]
  constructor
  · intro h p hp
    have := h p hp
    simpa using this
  · intro h p hp
    simpa using h p hp

theorem dictLookup_append_left_none {V : Type} {d1 : Dict V} {k : PyStr}
    (h : dictLookup d1 k = none) (d2 : Dict V) :
    dictLookup (d1 ++ d2) k = dictLookup d2 k := by
  unfold dictLookup at h ⊢
  rw [List.find?_append]
  rw [Option.map_eq_none'] at h
  rw [h]
  rfl

theorem addCommand_fresh {m : Model} {k : PyStr}
    (h : dictLookup m.commands k = none) (v : CmdRec) :
    m.addCommand k v = ⟨m.commands ++ [(k, v)], m.errors, m.warnings⟩ := by
  unfold Model.addCommand dictInsert
  rw [if_neg (by
    rw [Bool.not_eq_true, List.any_eq_false]
    intro p hp
    simpa using dictLookup_eq_none_iff.mp h p hp)]

theorem commandsByType_append_prefixed {m : Model} {pre k : PyStr}
    {v : CmdRec} (hk : pre.isPrefixOf k = true) :
    ((⟨m.commands ++ [(k, v)], m.errors, m.warnings⟩ : Model).commandsByType
      pre).length = (m.commandsByType pre).length + 1 := by
  unfold Model.commandsByType
  rw [List.filter_append]
  rw [List.length_append]
  simp [hk]

/-- Equation lemma for one step of `tsgLoop`. -/
theorem tsgLoop_cons_eq (l : PyStr) (rest : List PyStr) (i : Nat)
    (nums : List Nat) (m : Model) :
    tsgLoop (l :: rest) i nums m =
      if pyStrip l = [] ∨ (pstr ";").isPrefixOf (pyStrip l) then
        tsgLoop rest (i + 1) nums m
      else
        match nums[i]? with
        | none => .error (m, indexErrMsg)
        | some n =>
          match parseTsGroupLine m (pyStrip l) n with
          | (m1, some r) =>
            tsgLoop rest (i + 1) nums
              (m1.addCommand
                (tsGroupKey ((m1.commandsByType (pstr "TS-GROUP")).length)) r)
          | (m1, none) => tsgLoop rest (i + 1) nums m1 := rfl

/-- Running the `TS-GROUP` row loop over valid rows from a model with `c0`
`TS-GROUP`-prefixed commands (and no key `TS-GROUP_<j>` for `j ≥ c0`)
appends one record per row under the synthesized keys
`TS-GROUP_<c0>, TS-GROUP_<c0+1>, …`, leaving errors and warnings
untouched. -/
theorem tsgLoop_run :
    ∀ (rows : List PyStr) (i : Nat) (nums : List Nat) (m : Model) (c0 : Nat),
      (∀ r ∈ rows, validTsRow r) →
      i + rows.length ≤ nums.length →
      (m.commandsByType (pstr "TS-GROUP")).length = c0 →
      (∀ j, c0 ≤ j → dictLookup m.commands (tsGroupKey j) = none) →
      ∃ newpairs : Dict CmdRec,
        tsgLoop rows i nums m =
          .ok ⟨m.commands ++ newpairs, m.errors, m.warnings⟩ ∧
        newpairs.map Prod.fst =
          (List.range rows.length).map (fun j => tsGroupKey (c0 + j)) := by
  intro rows
  induction rows with
  | nil =>
    intro i nums m c0 _ _ _ _
    exact ⟨[], by simp [tsgLoop], by simp⟩
  | cons r rest ih =>
    intro i nums m c0 hv hlen hc hfresh
    obtain ⟨h1, h2, h3, h4, h5⟩ := hv r (List.mem_cons_self r rest)
    rw [tsgLoop_cons_eq]
    rw [if_neg (by
      push_neg
      exact ⟨h1, by simp [h2]⟩)]
    have hi : i < nums.length := by
      simp only [List.length_cons] at hlen
      omega
    rw [List.getElem?_eq_getElem hi]
    dsimp only
    obtain ⟨rec, hrec⟩ :=
      parseTsGroupLine_valid ⟨h1, h2, h3, h4, h5⟩ m (nums[i])
    rw [hrec]
    dsimp only
    rw [hc]
    have hfr : dictLookup m.commands (tsGroupKey c0) = none :=
      hfresh c0 (le_refl _)
    rw [addCommand_fresh hfr rec]
    obtain ⟨np, hnp1, hnp2⟩ := ih (i + 1) nums
      ⟨m.commands ++ [(tsGroupKey c0, rec)], m.errors, m.warnings⟩ (c0 + 1)
      (fun x hx => hv x (List.mem_cons_of_mem r hx))
      (by simp only [List.length_cons] at hlen; omega)
      (by
        rw [commandsByType_append_prefixed (tsGroupKey_prefixed c0), hc])
      (by
        intro j hj
        show dictLookup (m.commands ++ [(tsGroupKey c0, rec)]) (tsGroupKey j) = none
        rw [dictLookup_append_left_none (hfresh j (by omega)) _]
        unfold dictLookup
        rw [List.find?_cons_of_neg _ (by
          simp only [decide_eq_true_eq]
          intro hkey
          have := tsGroupKey_inj hkey
          omega)]
        rfl)
    refine ⟨(tsGroupKey c0, rec) :: np, ?_, ?_⟩
    · rw [hnp1]
      simp
    · simp only [List.map_cons, hnp2, List.length_cons]
      rw [List.range_succ_eq_map]
      simp only [List.map_cons, List.map_map]
      congr 1
      apply List.map_congr_left
      intro j _
      simp only [Function.comp_apply]
      congr 1
      omega

/-- Equation lemma for one step of the `parse_ts_group` skip loop. -/
theorem tsgSkip_cons_eq (l : PyStr) (rest : List PyStr) (i : Nat) :
    tsgSkip (l :: rest) i =
      if pyStrip l ≠ [] ∧ ¬ (pstr ";").isPrefixOf (pyStrip l) ∧
          ¬ (pstr "*TS-GROUP").isPrefixOf (pyStrip l) then
        (l :: rest, i)
      else tsgSkip rest (i + 1) := rfl

/-- C7 (amended): within a single `TS-GROUP` block, every decoded row is
stored under its own synthesized key `TS-GROUP_<n>` (one key per record, in
row order), so no record *within the block* is lost to a key collision; the
errors and warnings are untouched.  (Records of an *earlier* block with the
same keyword are nevertheless lost: the splitter keeps only the last block —
see the counterexample.) -/
theorem c7_ts_group_synthesized_keys :
    ∀ (m : Model) (h0 : PyStr) (rows : List PyStr) (nums : List Nat),
      (pstr "*TS-GROUP").isPrefixOf (pyStrip h0) = true →
      rows ≠ [] →
      (∀ r ∈ rows, validTsRow r) →
      1 + rows.length ≤ nums.length →
      (∀ p ∈ m.commands, (pstr "TS-GROUP").isPrefixOf p.1 = false) →
      ∃ newpairs : Dict CmdRec,
        parseTsGroupD (h0 :: rows) nums m =
          (⟨m.commands ++ newpairs, m.errors, m.warnings⟩, none) ∧
        newpairs.map Prod.fst = (List.range rows.length).map tsGroupKey := by
  intro m h0 rows nums hh0 hne hv hlen hm
  have hc0 : (m.commandsByType (pstr "TS-GROUP")).length = 0 := by
    unfold Model.commandsByType
    rw [List.length_eq_zero]
    rw [List.filter_eq_nil_iff]
    intro p hp
    simp [hm p hp]
  have hfresh : ∀ j, 0 ≤ j → dictLookup m.commands (tsGroupKey j) = none := by
    intro j _
    rw [dictLookup_eq_none_iff]
    intro p hp hkey
    have := hm p hp
    rw [hkey, tsGroupKey_prefixed j] at this
    cases this
  obtain ⟨np, hnp1, hnp2⟩ := tsgLoop_run rows 1 nums m 0 hv (by omega) hc0 hfresh
  refine ⟨np, ?_, by simpa using hnp2⟩
  unfold parseTsGroupD
  rw [if_neg (by
    cases rows with
    | nil => exact absurd rfl hne
    | cons a l => simp)]
  have hskip : tsgSkip (h0 :: rows) 0 = (rows, 1) := by
    rw [tsgSkip_cons_eq]
    rw [if_neg (by
      push_neg
      intro _ _
      simp [hh0])]
    cases rows with
    | nil => exact absurd rfl hne
    | cons r rest =>
      rw [tsgSkip_cons_eq]
      obtain ⟨g1, g2, g3, _, _⟩ := hv r (List.mem_cons_self r rest)
      rw [if_pos ⟨g1, by simp [g2], by simp [g3]⟩]
  rw [hskip]
  dsimp only
  rw [hnp1]

/-- C7 counterexample: a document with two `*TS-GROUP` blocks, each holding
one valid row, decodes to a model containing only `TS-GROUP_0` with the
*second* block's record (`name = "B"`); the first block's record (`"A"`) is
lost, because the splitter keeps only the last block under the `TS-GROUP`
key.  So records of earlier same-named blocks are not kept. -/
theorem c7_counterexample :
    parseText theTable
        (pstr "*TS-GROUP\nA,1,LINEAR,,,,LINEAR\n*TS-GROUP\nB,2,LINEAR,,,,LINEAR") =
      .ok ⟨[(tsGroupKey 0,
        .tsGroup 0 (pstr "B") [2]
          ⟨pstr "linear", none, none, none⟩ ⟨pstr "linear", none, none, none⟩
          (pstr "0") [pstr "B,2,LINEAR,,,,LINEAR"] [4])], [], []⟩ := by decide

/-- C7 witness: one `TS-GROUP` block with two valid rows stores both records
under the distinct keys `TS-GROUP_0` and `TS-GROUP_1`. -/
theorem c7_witness :
    ∃ newpairs : Dict CmdRec,
      parseTsGroupD
          [pstr "*TS-GROUP", pstr "A,1,LINEAR,,,,LINEAR",
            pstr "B,2,LINEAR,,,,LINEAR"] [1, 2, 3] Model.empty =
        (⟨Model.empty.commands ++ newpairs, Model.empty.errors,
          Model.empty.warnings⟩, none) ∧
      newpairs.map Prod.fst = (List.range 2).map tsGroupKey := by
  have h := c7_ts_group_synthesized_keys Model.empty (pstr "*TS-GROUP")
    [pstr "A,1,LINEAR,,,,LINEAR", pstr "B,2,LINEAR,,,,LINEAR"] [1, 2, 3]
    (by decide) (by decide)
    (by
      intro r hr
      rcases List.mem_cons.mp hr with h | h
      · subst h; decide
      · rcases List.mem_cons.mp h with h | h
        · subst h; decide
        · simp at h)
    (by decide)
    (by intro p hp; simp [Model.empty] at hp)
  exact h

/-! ## C4: duplicate command keywords in the block splitter -/

/-- A command keyword as the splitter can extract one: nonempty, containing
no whitespace and no comment marker `;`. -/
abbrev wfKeyword (k : PyStr) : Prop :=
  k ≠ [] ∧ ∀ c ∈ k, wsChar c = false ∧ c ≠ ';'

/-- A data row as the splitter stores one: fixed by `_preprocess_line`,
nonempty, and not starting a new command. -/
abbrev wfBody (b : PyStr) : Prop :=
  preprocessLine b = b ∧ b ≠ [] ∧ b.head? ≠ some '*'

/-- A well-formed abstract block: a keyword plus its data rows. -/
abbrev wfBlock (p : PyStr × List PyStr) : Prop :=
  wfKeyword p.1 ∧ ∀ b ∈ p.2, wfBody b

/-- The document whose lines are the given blocks in order, each block a
`*`-header line followed by its data rows. -/
def mkDoc (bs : List (PyStr × List PyStr)) : List PyStr :=
  (bs.map (fun p => ('*' :: p.1) :: p.2)).flatten

/-- The (keyword, (rows, 1-based line numbers)) entry each block of
`mkDoc bs` contributes when the first block's header sits at 0-based
line `o`: the header line itself is the first stored row. -/
def renderBlocks : Nat → List (PyStr × List PyStr) → List (PyStr × (List PyStr × List Nat))
  | _, [] => []
  | o, (k, body) :: rest =>
    (k, (('*' :: k) :: body, List.range' (o + 1) (body.length + 1))) ::
      renderBlocks (o + 1 + body.length) rest

/-- The deferred save of the open block (`parser.py:298-299` and
`parser.py:312-314`). -/
def closeSt (cur : Option PyStr) (ls : List PyStr) (ns : List Nat)
    (d : BlockDict) : BlockDict :=
  match cur with
  | some c => dictInsert d c (ls, ns)
  | none => d

theorem preprocess_keyword_line {k : PyStr} (h : wfKeyword k) :
    preprocessLine ('*' :: k) = '*' :: k := by
  obtain ⟨hne, hall⟩ := h
  unfold preprocessLine
  have ht : ('*' :: k).takeWhile (fun c => decide (c ≠ ';')) = '*' :: k := by
    rw [List.takeWhile_eq_self_iff]
    intro c hc
    rcases List.mem_cons.mp hc with hc | hc
    · subst hc; decide
    · simpa using (hall c hc).2
  rw [ht]
  apply pyStrip_noWs
  intro c hc
  rcases List.mem_cons.mp hc with hc | hc
  · subst hc; decide
  · exact (hall c hc).1

theorem splitStep_header {k : PyStr} (hk : wfKeyword k)
    (i : Nat) (cur : Option PyStr) (ls : List PyStr) (ns : List Nat)
    (d : BlockDict) :
    splitStep i ('*' :: k) cur ls ns d =
      .ok (some k, ['*' :: k], [i + 1], closeSt cur ls ns d) := by
  unfold splitStep
  rw [preprocess_keyword_line hk]
  rw [if_neg (by simp), if_pos (by rfl)]
  show (match splitWs k with
    | [] => Except.error indexErrMsg
    | kk :: _ => .ok (some kk, ['*' :: k], [i + 1], closeSt cur ls ns d)) = _
  rw [splitWs_single hk.1 (fun c hc => (hk.2 c hc).1)]

theorem splitStep_body {b : PyStr} (hb : wfBody b) (i : Nat) (c : PyStr)
    (ls : List PyStr) (ns : List Nat) (d : BlockDict) :
    splitStep i b (some c) ls ns d = .ok (some c, ls ++ [b], ns ++ [i + 1], d) := by
  obtain ⟨hpre, hne, hstar⟩ := hb
  unfold splitStep
  rw [hpre, if_neg hne, if_neg hstar]

theorem splitBlocksAux_cons (raw : PyStr) (rest : List PyStr) (i : Nat)
    (cur : Option PyStr) (ls : List PyStr) (ns : List Nat) (d : BlockDict) :
    splitBlocksAux (raw :: rest) i cur ls ns d =
      match splitStep i raw cur ls ns d with
      | .error e => .error e
      | .ok (cur', ls', ns', d') => splitBlocksAux rest (i + 1) cur' ls' ns' d' := rfl

theorem splitAux_body_run : ∀ (body : List PyStr), (∀ b ∈ body, wfBody b) →
    ∀ (rest : List PyStr) (i : Nat) (c : PyStr) (ls : List PyStr)
      (ns : List Nat) (d : BlockDict),
    splitBlocksAux (body ++ rest) i (some c) ls ns d =
      splitBlocksAux rest (i + body.length) (some c) (ls ++ body)
        (ns ++ List.range' (i + 1) body.length) d := by
  intro body
  induction body with
  | nil => intro _ rest i c ls ns d; simp
  | cons b body' ih =>
    intro hwf rest i c ls ns d
    rw [List.cons_append, splitBlocksAux_cons,
      splitStep_body (hwf b (List.mem_cons_self b body')) i c ls ns d]
    show splitBlocksAux (body' ++ rest) (i + 1) (some c) (ls ++ [b]) (ns ++ [i + 1]) d = _
    rw [ih (fun x hx => hwf x (List.mem_cons_of_mem b hx)) rest (i + 1) c _ _ d]
    rw [List.append_assoc ls [b] body', List.singleton_append]
    rw [List.append_assoc ns [i + 1], List.singleton_append]
    rw [show i + 1 + body'.length = i + (b :: body').length from by
      simp [List.length_cons]; omega]
    rw [show (i + 1) + 1 = (i + 1) + 1 from rfl]
    rw [show (i + 1 : Nat) :: List.range' (i + 1 + 1) body'.length =
      List.range' (i + 1) (body'.length + 1) from (List.range'_succ _ _ _).symm]
    rw [List.length_cons]

theorem splitAux_mkDoc : ∀ (bs : List (PyStr × List PyStr)),
    (∀ p ∈ bs, wfBlock p) →
    ∀ (i : Nat) (cur : Option PyStr) (ls : List PyStr) (ns : List Nat)
      (d : BlockDict),
    (∀ c, cur = some c → ls ≠ []) →
    splitBlocksAux (mkDoc bs) i cur ls ns d =
      .ok ((renderBlocks i bs).foldl (fun a p => dictInsert a p.1 p.2)
        (closeSt cur ls ns d)) := by
  intro bs
  induction bs with
  | nil =>
    intro _ i cur ls ns d hcur
    show splitBlocksAux [] i cur ls ns d = _
    cases cur with
    | none => rfl
    | some c =>
      show (if ls ≠ [] then Except.ok (dictInsert d c (ls, ns)) else .ok d) = _
      rw [if_pos (hcur c rfl)]
      rfl
  | cons p bs' ih =>
    intro hwf i cur ls ns d hcur
    obtain ⟨k, body⟩ := p
    have hwfp := hwf (k, body) (List.mem_cons_self _ _)
    have hdoc : mkDoc ((k, body) :: bs') = ('*' :: k) :: (body ++ mkDoc bs') := by
      simp [mkDoc]
    rw [hdoc, splitBlocksAux_cons, splitStep_header hwfp.1]
    show splitBlocksAux (body ++ mkDoc bs') (i + 1) (some k) ['*' :: k] [i + 1]
        (closeSt cur ls ns d) = _
    rw [splitAux_body_run body hwfp.2 (mkDoc bs') (i + 1) k _ _ _]
    rw [ih (fun x hx => hwf x (List.mem_cons_of_mem _ hx)) _ _ _ _ _
      (fun c hc => by simp)]
    show Except.ok (List.foldl _ (closeSt (some k) (['*' :: k] ++ body)
      ([i + 1] ++ List.range' (i + 1 + 1) body.length) _) _) = _
    rw [List.singleton_append, List.singleton_append]
    rw [show (i + 1 : Nat) :: List.range' (i + 1 + 1) body.length =
      List.range' (i + 1) (body.length + 1) from (List.range'_succ _ _ _).symm]
    rfl

theorem dictLookup_dictInsert {V : Type} (d : Dict V) (k kq : PyStr) (v : V) :
    dictLookup (dictInsert d k v) kq = if kq = k then some v else dictLookup d kq := by
  unfold dictInsert dictLookup
  by_cases hany : d.any (fun p => p.1 = k)
  · rw [if_pos hany, List.find?_map]
    by_cases hk : kq = k
    · rw [if_pos hk]
      have hpe : ((fun p : PyStr × V => decide (p.1 = kq)) ∘
          (fun p => if p.1 = k then (k, v) else p)) =
          (fun x : PyStr × V => decide (x.1 = k)) := by
        funext x
        by_cases hx : x.1 = k <;> simp [hx, hk]
      rw [hpe]
      obtain ⟨x, hxm, hxp⟩ := List.any_eq_true.mp hany
      have hs : (List.find? (fun x : PyStr × V => decide (x.1 = k)) d).isSome := by
        rw [List.find?_isSome]
        exact ⟨x, hxm, hxp⟩
      obtain ⟨y, hy⟩ := Option.isSome_iff_exists.mp hs
      have hyk : y.1 = k := by simpa using List.find?_some hy
      rw [hy]
      simp [hyk]
    · rw [if_neg hk]
      have hpe : ((fun p : PyStr × V => decide (p.1 = kq)) ∘
          (fun p => if p.1 = k then (k, v) else p)) =
          (fun x : PyStr × V => decide (x.1 = kq)) := by
        funext x
        by_cases hx : x.1 = k <;> simp [hx, fun h : kq = k => hk h]
      rw [hpe]
      cases hfd : List.find? (fun x : PyStr × V => decide (x.1 = kq)) d with
      | none => simp
      | some y =>
        have hyk : y.1 = kq := by simpa using List.find?_some hfd
        have hyne : ¬ y.1 = k := by rw [hyk]; exact hk
        simp [hyne]
  · rw [if_neg hany, List.find?_append]
    have hall : ∀ p ∈ d, ¬ p.1 = k := by
      intro p hp
      have := List.any_eq_false.mp (eq_false_of_ne_true hany) p hp
      simpa using this
    by_cases hk : kq = k
    · rw [if_pos hk]
      rw [List.find?_eq_none.mpr (fun p hp => by
        simpa using fun h : p.1 = kq => hall p hp (hk ▸ h))]
      simp [hk]
    · have h1 : List.find? (fun p : PyStr × V => decide (p.1 = kq)) [(k, v)] = none := by
        have hd : decide (k = kq) = false := decide_eq_false (fun h => hk h.symm)
        simp [List.find?, hd]
      rw [h1, if_neg hk]
      cases List.find? (fun p : PyStr × V => decide (p.1 = kq)) d <;> simp

theorem dictLookup_foldl_insert {V : Type} :
    ∀ (ps : List (PyStr × V)) (k : PyStr) (d0 : Dict V),
    dictLookup (ps.foldl (fun a p => dictInsert a p.1 p.2) d0) k =
      match ps.reverse.find? (fun p => p.1 = k) with
      | some q => some q.2
      | none => dictLookup d0 k := by
  intro ps
  induction ps with
  | nil => intro k d0; rfl
  | cons p ps' ih =>
    intro k d0
    rw [List.foldl_cons, ih, List.reverse_cons, List.find?_append]
    cases hfd : ps'.reverse.find? (fun q : PyStr × V => decide (q.1 = k)) with
    | some q => simp
    | none =>
      rw [Option.none_or]
      show dictLookup (dictInsert d0 p.1 p.2) k = _
      rw [dictLookup_dictInsert]
      by_cases hk : p.1 = k
      · rw [List.find?_cons_of_pos _ (by simpa using hk)]
        show (if k = p.1 then some p.2 else dictLookup d0 k) = some p.2
        rw [if_pos hk.symm]
      · rw [List.find?_cons_of_neg _ (by simpa using hk), List.find?_nil]
        show (if k = p.1 then some p.2 else dictLookup d0 k) = dictLookup d0 k
        rw [if_neg (fun h => hk h.symm)]

theorem mem_dictInsert {V : Type} {p : PyStr × V} {d : Dict V} {k : PyStr}
    {v : V} (hp : p ∈ dictInsert d k v) :
    p = (k, v) ∨ (p ∈ d ∧ ¬ p.1 = k) := by
  unfold dictInsert at hp
  by_cases hany : d.any (fun q => q.1 = k)
  · rw [if_pos hany] at hp
    obtain ⟨q, hqm, hqe⟩ := List.mem_map.mp hp
    by_cases hqk : q.1 = k
    · left; rw [← hqe, if_pos hqk]
    · right
      rw [← hqe, if_neg hqk]
      exact ⟨hqm, hqk⟩
  · rw [if_neg hany] at hp
    rcases List.mem_append.mp hp with hp | hp
    · right
      refine ⟨hp, ?_⟩
      have := List.any_eq_false.mp (eq_false_of_ne_true hany) p hp
      simpa using this
    · left; simpa using hp

theorem foldl_insert_key_val {V : Type} :
    ∀ (ps : List (PyStr × V)) (k : PyStr) (d0 : Dict V) (p : PyStr × V),
    p ∈ ps.foldl (fun a q => dictInsert a q.1 q.2) d0 → p.1 = k →
      (match ps.reverse.find? (fun q => q.1 = k) with
       | some q => p.2 = q.2
       | none => p ∈ d0) := by
  intro ps
  induction ps with
  | nil => intro k d0 p hp _; exact hp
  | cons q ps' ih =>
    intro k d0 p hp hpk
    rw [List.foldl_cons] at hp
    have hih := ih k (dictInsert d0 q.1 q.2) p hp hpk
    rw [List.reverse_cons, List.find?_append]
    cases hfd : ps'.reverse.find? (fun r : PyStr × V => decide (r.1 = k)) with
    | some r =>
      rw [hfd] at hih
      simpa using hih
    | none =>
      rw [hfd] at hih
      simp only [Option.none_or]
      rcases mem_dictInsert hih with hpe | ⟨hpd, hpne⟩
      · have hqk : q.1 = k := by rw [← hpk, hpe]
        simp [List.find?, hqk, hpe]
      · have hqnk : ¬ q.1 = k := fun h => hpne (by rw [hpk, ← h])
        simp [List.find?, hqnk, hpd]

theorem renderBlocks_append : ∀ (xs ys : List (PyStr × List PyStr)) (o : Nat),
    renderBlocks o (xs ++ ys) =
      renderBlocks o xs ++ renderBlocks (o + (mkDoc xs).length) ys := by
  intro xs
  induction xs with
  | nil => intro ys o; simp [renderBlocks, mkDoc]
  | cons p xs' ih =>
    intro ys o
    obtain ⟨k, body⟩ := p
    show renderBlocks o ((k, body) :: (xs' ++ ys)) = _
    rw [show renderBlocks o ((k, body) :: (xs' ++ ys)) =
      (k, (('*' :: k) :: body, List.range' (o + 1) (body.length + 1))) ::
        renderBlocks (o + 1 + body.length) (xs' ++ ys) from rfl]
    rw [ih ys (o + 1 + body.length)]
    have hlen : o + 1 + body.length + (mkDoc xs').length =
        o + (mkDoc ((k, body) :: xs')).length := by
      simp [mkDoc, List.length_append]
      omega
    rw [hlen]
    rfl

theorem renderBlocks_keys : ∀ (bs : List (PyStr × List PyStr)) (o : Nat),
    (renderBlocks o bs).map Prod.fst = bs.map Prod.fst := by
  intro bs
  induction bs with
  | nil => intro o; rfl
  | cons p bs' ih =>
    intro o
    obtain ⟨k, body⟩ := p
    show (((k, _) :: renderBlocks (o + 1 + body.length) bs').map Prod.fst) = _
    rw [List.map_cons, ih]
    rfl

/-- **C4**: in a document whose blocks are well formed and in which the
keyword `k` introduces at least two blocks (one in the `bs1` prefix and the
final one `(k, body)` after it), `_split_command_blocks` maps `k` to exactly
the rows and 1-based line numbers of the last `k` block — its header line
followed by `body`, numbered from the header's position after `mkDoc bs1` —
and every entry of the output dict keyed `k` carries exactly that value, so
the rows of the earlier `k` blocks are absent from the output mapping. -/
theorem c4_duplicate_blocks_last_wins
    (bs1 bs2 : List (PyStr × List PyStr)) (k : PyStr) (body : List PyStr)
    (hwf : ∀ p ∈ bs1 ++ (k, body) :: bs2, wfBlock p)
    (hdup : 1 ≤ (bs1.map Prod.fst).count k)
    (hlast : ∀ p ∈ bs2, ¬ p.1 = k) :
    ∃ d, splitCommandBlocks (mkDoc (bs1 ++ (k, body) :: bs2)) = .ok d ∧
      dictLookup d k =
        some (('*' :: k) :: body,
          List.range' ((mkDoc bs1).length + 1) (body.length + 1)) ∧
      ∀ v, (k, v) ∈ d →
        v = (('*' :: k) :: body,
          List.range' ((mkDoc bs1).length + 1) (body.length + 1)) := by
  have hcb : splitCommandBlocks (mkDoc (bs1 ++ (k, body) :: bs2)) =
      .ok ((renderBlocks 0 (bs1 ++ (k, body) :: bs2)).foldl
        (fun a p => dictInsert a p.1 p.2) []) :=
    splitAux_mkDoc (bs1 ++ (k, body) :: bs2) hwf 0 none [] [] []
      (fun c hc => nomatch hc)
  have hfind : (renderBlocks 0 (bs1 ++ (k, body) :: bs2)).reverse.find?
      (fun p => p.1 = k) =
      some (k, (('*' :: k) :: body,
        List.range' ((mkDoc bs1).length + 1) (body.length + 1))) := by
    rw [renderBlocks_append bs1 ((k, body) :: bs2) 0]
    simp only [Nat.zero_add]
    rw [show renderBlocks ((mkDoc bs1).length) ((k, body) :: bs2) =
      (k, (('*' :: k) :: body,
        List.range' ((mkDoc bs1).length + 1) (body.length + 1))) ::
        renderBlocks ((mkDoc bs1).length + 1 + body.length) bs2 from rfl]
    rw [List.reverse_append, List.reverse_cons, List.find?_append,
      List.find?_append]
    have h2 : (renderBlocks ((mkDoc bs1).length + 1 + body.length)
        bs2).reverse.find? (fun p => decide (p.1 = k)) = none := by
      apply List.find?_eq_none.mpr
      intro x hx
      have hxm : x ∈ renderBlocks ((mkDoc bs1).length + 1 + body.length) bs2 :=
        List.mem_reverse.mp hx
      have hxk : x.1 ∈ bs2.map Prod.fst := by
        rw [← renderBlocks_keys bs2 ((mkDoc bs1).length + 1 + body.length)]
        exact List.mem_map_of_mem Prod.fst hxm
      obtain ⟨q, hq, hqe⟩ := List.mem_map.mp hxk
      simpa [← hqe] using hlast q hq
    rw [h2, Option.none_or]
    rw [List.find?_cons_of_pos _ (by simp)]
    rfl
  refine ⟨_, hcb, ?_, ?_⟩
  · rw [dictLookup_foldl_insert, hfind]
  · intro v hv
    have hval := foldl_insert_key_val
      (renderBlocks 0 (bs1 ++ (k, body) :: bs2)) k [] (k, v) hv rfl
    rw [hfind] at hval
    exact hval

/-- C4 witness: a document with two `NODE` blocks separated by an `ELEM`
block retains only the second `NODE` block's rows under key `NODE`. -/
theorem c4_witness :
    ∃ d, splitCommandBlocks (mkDoc ([(pstr "NODE", [pstr "1, 0, 0, 0"]),
        (pstr "ELEM", [pstr "1, 1, 2"])] ++ (pstr "NODE", [pstr "2, 1, 0, 0"]) :: [])) = .ok d ∧
      dictLookup d (pstr "NODE") =
        some (('*' :: pstr "NODE") :: [pstr "2, 1, 0, 0"],
          List.range' ((mkDoc [(pstr "NODE", [pstr "1, 0, 0, 0"]),
            (pstr "ELEM", [pstr "1, 1, 2"])]).length + 1)
            ([pstr "2, 1, 0, 0"].length + 1)) ∧
      ∀ v, (pstr "NODE", v) ∈ d →
        v = (('*' :: pstr "NODE") :: [pstr "2, 1, 0, 0"],
          List.range' ((mkDoc [(pstr "NODE", [pstr "1, 0, 0, 0"]),
            (pstr "ELEM", [pstr "1, 1, 2"])]).length + 1)
            ([pstr "2, 1, 0, 0"].length + 1)) :=
  c4_duplicate_blocks_last_wins
    [(pstr "NODE", [pstr "1, 0, 0, 0"]), (pstr "ELEM", [pstr "1, 1, 2"])]
    [] (pstr "NODE") [pstr "2, 1, 0, 0"]
    (by decide) (by decide) (by decide)

/-! ## C9: `raw_lines` / `line_nums` alignment -/

/-- The preprocessed text of 1-based source line `n` of the document. -/
def srcLine (doc : List PyStr) (n : Nat) : PyStr :=
  preprocessLine (doc.getD (n - 1) [])

/-- A `(rows, line numbers)` pair is aligned with the document: equal
lengths, and the `j`-th stored row is the preprocessed text of the `j`-th
stored source line number. -/
def alignedPair (doc : List PyStr) (p : List PyStr × List Nat) : Prop :=
  p.1.length = p.2.length ∧
  ∀ j, j < p.1.length → p.1.getD j [] = srcLine doc (p.2.getD j 0)

/-- A stored record row either is the preprocessed source line itself, or
is derived from it by `parse_ts_group_line`'s backslash removal and strip
(`tapered_section_parsers.py:110-111`). -/
def lineDerivedFrom (doc : List PyStr) (l : PyStr) (n : Nat) : Prop :=
  l = srcLine doc n ∨
  l = pyStrip ((srcLine doc n).filter (fun c => c ≠ '\\'))

/-- `raw_lines` and `line_nums` of a record are equally long and the `j`-th
raw line originates from the `j`-th stored line number. -/
def recAligned (doc : List PyStr) (r : CmdRec) : Prop :=
  r.rawOf.length = r.numsOf.length ∧
  ∀ j, j < r.rawOf.length →
    lineDerivedFrom doc (r.rawOf.getD j []) (r.numsOf.getD j 0)

/-- All records of a model are aligned with the document. -/
def modelAligned (doc : List PyStr) (m : Model) : Prop :=
  ∀ p ∈ m.commands, recAligned doc p.2

theorem alignedPair_snoc {doc : List PyStr} {ls : List PyStr} {ns : List Nat}
    (h : alignedPair doc (ls, ns)) {i : Nat} {raw : PyStr}
    (hline : doc[i]? = some raw) :
    alignedPair doc (ls ++ [preprocessLine raw], ns ++ [i + 1]) := by
  constructor
  · simp [h.1]
  · intro j hj
    rw [List.length_append, List.length_singleton] at hj
    by_cases hjl : j < ls.length
    · have h1 : (ls ++ [preprocessLine raw]).getD j [] = ls.getD j [] := by
        simp [List.getD_eq_getElem?_getD, List.getElem?_append, hjl]
      have h2 : (ns ++ [i + 1]).getD j 0 = ns.getD j 0 := by
        simp [List.getD_eq_getElem?_getD, List.getElem?_append, h.1 ▸ hjl]
      rw [h1, h2]
      exact h.2 j hjl
    · have hje : j = ls.length := by omega
      subst hje
      have h1 : (ls ++ [preprocessLine raw]).getD ls.length [] =
          preprocessLine raw := by
        simp [List.getD_eq_getElem?_getD, List.getElem?_append]
      have h2 : (ns ++ [i + 1]).getD ls.length 0 = i + 1 := by
        simp [List.getD_eq_getElem?_getD, List.getElem?_append, h.1]
      rw [h1, h2]
      show preprocessLine raw = srcLine doc (i + 1)
      unfold srcLine
      rw [show i + 1 - 1 = i from rfl]
      rw [List.getD_eq_getElem?_getD, hline]
      rfl

theorem splitStep_aligned {doc : List PyStr} {i : Nat} {raw : PyStr}
    {cur cur' : Option PyStr} {ls ls' : List PyStr} {ns ns' : List Nat}
    {d d' : BlockDict}
    (hraw : doc[i]? = some raw)
    (ha : alignedPair doc (ls, ns))
    (hd : ∀ p ∈ d, alignedPair doc p.2)
    (hstep : splitStep i raw cur ls ns d = .ok (cur', ls', ns', d')) :
    alignedPair doc (ls', ns') ∧ ∀ p ∈ d', alignedPair doc p.2 := by
  simp only [splitStep] at hstep
  by_cases hbl : preprocessLine raw = []
  · rw [if_pos hbl] at hstep
    simp only [Except.ok.injEq, Prod.mk.injEq] at hstep
    obtain ⟨rfl, rfl, rfl, rfl⟩ := hstep
    exact ⟨ha, hd⟩
  · rw [if_neg hbl] at hstep
    by_cases hst : (preprocessLine raw).head? = some '*'
    · rw [if_pos hst] at hstep
      cases hsw : splitWs (preprocessLine raw).tail with
      | nil =>
        rw [hsw] at hstep
        exact absurd hstep (by simp)
      | cons k ks =>
        rw [hsw] at hstep
        simp only [Except.ok.injEq, Prod.mk.injEq] at hstep
        obtain ⟨rfl, rfl, rfl, rfl⟩ := hstep
        constructor
        · constructor
          · rfl
          · intro j hj
            have hj0 : j = 0 := by
              simpa using Nat.lt_one_iff.mp (by simpa using hj)
            subst hj0
            show preprocessLine raw = srcLine doc (i + 1)
            unfold srcLine
            rw [show i + 1 - 1 = i from rfl, List.getD_eq_getElem?_getD, hraw]
            rfl
        · cases cur with
          | none => exact hd
          | some c =>
            intro p hp
            rcases mem_dictInsert hp with hpe | ⟨hpd, _⟩
            · rw [hpe]
              exact ha
            · exact hd p hpd
    · rw [if_neg hst] at hstep
      cases cur with
      | some c =>
        simp only [Except.ok.injEq, Prod.mk.injEq] at hstep
        obtain ⟨rfl, rfl, rfl, rfl⟩ := hstep
        exact ⟨alignedPair_snoc ha hraw, hd⟩
      | none =>
        simp only [Except.ok.injEq, Prod.mk.injEq] at hstep
        obtain ⟨rfl, rfl, rfl, rfl⟩ := hstep
        exact ⟨ha, hd⟩

theorem splitAux_aligned : ∀ (rem doc : List PyStr) (i : Nat)
    (cur : Option PyStr) (ls : List PyStr) (ns : List Nat) (d res : BlockDict),
    rem = doc.drop i →
    alignedPair doc (ls, ns) →
    (∀ p ∈ d, alignedPair doc p.2) →
    splitBlocksAux rem i cur ls ns d = .ok res →
    ∀ p ∈ res, alignedPair doc p.2 := by
  intro rem
  induction rem with
  | nil =>
    intro doc i cur ls ns d res _ ha hd hrun
    cases cur with
    | none =>
      have hres : (Except.ok d : Except PyStr BlockDict) = .ok res := hrun
      obtain rfl := (Except.ok.inj hres)
      exact hd
    | some c =>
      have hres : (if ls ≠ [] then (Except.ok (dictInsert d c (ls, ns)) :
          Except PyStr BlockDict) else .ok d) = .ok res := hrun
      by_cases hls : ls ≠ []
      · rw [if_pos hls] at hres
        obtain rfl := (Except.ok.inj hres)
        intro p hp
        rcases mem_dictInsert hp with hpe | ⟨hpd, _⟩
        · rw [hpe]
          exact ha
        · exact hd p hpd
      · rw [if_neg hls] at hres
        obtain rfl := (Except.ok.inj hres)
        exact hd
  | cons raw rest ih =>
    intro doc i cur ls ns d res hrem ha hd hrun
    have hraw : doc[i]? = some raw := by
      have h0 : (doc.drop i)[0]? = some raw := by rw [← hrem]; simp
      rw [List.getElem?_drop] at h0
      simpa using h0
    have hrest : rest = doc.drop (i + 1) := by
      have h1 : (doc.drop i).drop 1 = doc.drop (i + 1) := List.drop_drop 1 i doc
      rw [← hrem] at h1
      simpa using h1
    rw [splitBlocksAux_cons] at hrun
    cases hstep : splitStep i raw cur ls ns d with
    | error e =>
      rw [hstep] at hrun
      exact absurd hrun (by simp)
    | ok st =>
      obtain ⟨cur', ls', ns', d'⟩ := st
      rw [hstep] at hrun
      obtain ⟨ha', hd'⟩ := splitStep_aligned hraw ha hd hstep
      exact ih doc (i + 1) cur' ls' ns' d' res hrest ha' hd' hrun

theorem splitCommandBlocks_aligned (doc : List PyStr) (d : BlockDict)
    (h : splitCommandBlocks doc = .ok d) : ∀ p ∈ d, alignedPair doc p.2 :=
  splitAux_aligned doc doc 0 none [] [] [] d (List.drop_zero doc).symm
    ⟨rfl, fun j hj => absurd hj (by simp)⟩
    (fun p hp => absurd hp (by simp)) h

theorem recAligned_verbatim {doc : List PyStr} {ls : List PyStr}
    {ns : List Nat} (h : alignedPair doc (ls, ns)) {r : CmdRec}
    (hr : r.rawOf = ls) (hn : r.numsOf = ns) : recAligned doc r := by
  constructor
  · rw [hr, hn]
    exact h.1
  · intro j hj
    rw [hr] at hj
    rw [hr, hn]
    exact Or.inl (h.2 j hj)

theorem modelAligned_addCommand {doc : List PyStr} {m : Model} {k : PyStr}
    {r : CmdRec} (hm : modelAligned doc m) (hr : recAligned doc r) :
    modelAligned doc (m.addCommand k r) := by
  intro p hp
  rcases mem_dictInsert hp with hpe | ⟨hpd, _⟩
  · rw [hpe]
    exact hr
  · exact hm p hpd

theorem modelAligned_of_commands_eq {doc : List PyStr} {m m' : Model}
    (h : m'.commands = m.commands) (hm : modelAligned doc m) :
    modelAligned doc m' :=
  fun p hp => hm p (h ▸ hp)

/-- A decoder that, fed an aligned block pair and a model with only aligned
records, yields a model with only aligned records. -/
def decAligned (doc : List PyStr) (dec : Decoder) : Prop :=
  ∀ ls ns m, alignedPair doc (ls, ns) → modelAligned doc m →
    modelAligned doc (dec ls ns m).1

theorem parseVersionD_aligned (doc : List PyStr) :
    decAligned doc parseVersionD := by
  intro ls ns m ha hm
  unfold parseVersionD
  by_cases h1 : ls.length < 2
  · rw [if_pos h1]
    exact hm
  · rw [if_neg h1]
    cases h2 : ls[1]? with
    | some l1 =>
      exact modelAligned_addCommand hm (recAligned_verbatim ha rfl rfl)
    | none => exact hm

theorem parseEigenCtrlD_aligned (doc : List PyStr) :
    decAligned doc parseEigenCtrlD := by
  intro ls ns m ha hm
  unfold parseEigenCtrlD
  by_cases h1 : ls.length < 2
  · rw [if_pos h1]
    exact hm
  · rw [if_neg h1]
    cases h2 : ls[1]? with
    | none => exact hm
    | some l1 =>
      dsimp only
      by_cases h3 : (splitWs (pyStrip l1)).length < 3
      · rw [if_pos h3]
        cases ns[1]? with
        | none => exact hm
        | some n1 => exact hm
      · rw [if_neg h3]
        cases parseEigenRow (splitWs (pyStrip l1)) with
        | ok q =>
          obtain ⟨modes, maxIterations, tolerance, opts⟩ := q
          exact modelAligned_addCommand hm (recAligned_verbatim ha rfl rfl)
        | error e => exact hm

theorem parseSelfWeightD_aligned (doc : List PyStr) :
    decAligned doc parseSelfWeightD := by
  intro ls ns m ha hm
  unfold parseSelfWeightD
  by_cases h1 : ls.length < 2
  · rw [if_pos h1]
    exact hm
  · rw [if_neg h1]
    cases h2 : ls[1]? with
    | none => exact hm
    | some l1 =>
      dsimp only
      by_cases h3 : (splitWs (pyStrip l1)).length < 1
      · rw [if_pos h3]
        exact hm
      · rw [if_neg h3]
        exact modelAligned_addCommand hm (recAligned_verbatim ha rfl rfl)

theorem bstStep_commands {i : Nat} {nums : List Nat} {l0 : PyStr}
    {cur cur' : Option ElemTemper} {temps temps' : List ElemTemper}
    {m m' : Model}
    (h : bstStep i nums l0 cur temps m = .ok (cur', temps', m')) :
    m'.commands = m.commands := by
  simp only [bstStep] at h
  by_cases hb1 : pyStrip l0 = []
  · rw [if_pos hb1] at h
    simp only [Except.ok.injEq, Prod.mk.injEq] at h
    rw [← h.2.2]
  · rw [if_neg hb1] at h
    by_cases hb2 : (pstr "INPUT").isPrefixOf (pyStrip (pyStrip l0)) = true
    · rw [if_neg (not_not_intro hb2)] at h
      cases cur with
      | none =>
        dsimp only at h
        cases hn : nums[i]? with
        | none =>
          rw [hn] at h
          exact absurd h (by simp)
        | some n =>
          rw [hn] at h
          simp only [Except.ok.injEq, Prod.mk.injEq] at h
          rw [← h.2.2]
          rfl
      | some dd =>
        dsimp only at h
        by_cases hb3 : (splitWs (pyStrip (pyStrip l0))).length < 8
        · rw [if_pos hb3] at h
          cases hn : nums[i]? with
          | none =>
            rw [hn] at h
            exact absurd h (by simp)
          | some n =>
            rw [hn] at h
            simp only [Except.ok.injEq, Prod.mk.injEq] at h
            rw [← h.2.2]
            rfl
        · rw [if_neg hb3] at h
          cases hpi : parseBstInput ((splitWs (pyStrip (pyStrip l0))).drop 1) with
          | ok sec =>
            rw [hpi] at h
            dsimp only at h
            split at h <;>
              (simp only [Except.ok.injEq, Prod.mk.injEq] at h
               rw [← h.2.2])
          | error e =>
            rw [hpi] at h
            cases hn : nums[i]? with
            | none =>
              rw [hn] at h
              exact absurd h (by simp)
            | some n =>
              rw [hn] at h
              simp only [Except.ok.injEq, Prod.mk.injEq] at h
              rw [← h.2.2]
              rfl
    · rw [if_pos hb2] at h
      by_cases hb4 : ((splitChar ',' (pyStrip l0)).map pyStrip).length < 5
      · rw [if_pos hb4] at h
        cases hn : nums[i]? with
        | none =>
          rw [hn] at h
          exact absurd h (by simp)
        | some n =>
          rw [hn] at h
          simp only [Except.ok.injEq, Prod.mk.injEq] at h
          rw [← h.2.2]
          rfl
      · rw [if_neg hb4] at h
        cases hph : parseBstHeader ((splitChar ',' (pyStrip l0)).map pyStrip) with
        | ok dd =>
          rw [hph] at h
          simp only [Except.ok.injEq, Prod.mk.injEq] at h
          rw [← h.2.2]
        | error e =>
          rw [hph] at h
          cases hn : nums[i]? with
          | none =>
            rw [hn] at h
            exact absurd h (by simp)
          | some n =>
            rw [hn] at h
            simp only [Except.ok.injEq, Prod.mk.injEq] at h
            rw [← h.2.2]
            rfl

theorem bstStep_commands_error {i : Nat} {nums : List Nat} {l0 : PyStr}
    {cur : Option ElemTemper} {temps : List ElemTemper} {m m' : Model}
    {e : PyStr}
    (h : bstStep i nums l0 cur temps m = .error (m', e)) :
    m'.commands = m.commands := by
  simp only [bstStep] at h
  by_cases hb1 : pyStrip l0 = []
  · rw [if_pos hb1] at h
    exact absurd h (by simp)
  · rw [if_neg hb1] at h
    by_cases hb2 : (pstr "INPUT").isPrefixOf (pyStrip (pyStrip l0)) = true
    · rw [if_neg (not_not_intro hb2)] at h
      cases cur with
      | none =>
        dsimp only at h
        cases hn : nums[i]? with
        | none =>
          rw [hn] at h
          simp only [Except.error.injEq, Prod.mk.injEq] at h
          rw [← h.1]
        | some n =>
          rw [hn] at h
          exact absurd h (by simp)
      | some dd =>
        dsimp only at h
        by_cases hb3 : (splitWs (pyStrip (pyStrip l0))).length < 8
        · rw [if_pos hb3] at h
          cases hn : nums[i]? with
          | none =>
            rw [hn] at h
            simp only [Except.error.injEq, Prod.mk.injEq] at h
            rw [← h.1]
          | some n =>
            rw [hn] at h
            exact absurd h (by simp)
        · rw [if_neg hb3] at h
          cases hpi : parseBstInput ((splitWs (pyStrip (pyStrip l0))).drop 1) with
          | ok sec =>
            rw [hpi] at h
            dsimp only at h
            split at h <;> exact absurd h (by simp)
          | error e2 =>
            rw [hpi] at h
            cases hn : nums[i]? with
            | none =>
              rw [hn] at h
              simp only [Except.error.injEq, Prod.mk.injEq] at h
              rw [← h.1]
            | some n =>
              rw [hn] at h
              exact absurd h (by simp)
    · rw [if_pos hb2] at h
      by_cases hb4 : ((splitChar ',' (pyStrip l0)).map pyStrip).length < 5
      · rw [if_pos hb4] at h
        cases hn : nums[i]? with
        | none =>
          rw [hn] at h
          simp only [Except.error.injEq, Prod.mk.injEq] at h
          rw [← h.1]
        | some n =>
          rw [hn] at h
          exact absurd h (by simp)
      · rw [if_neg hb4] at h
        cases hph : parseBstHeader ((splitChar ',' (pyStrip l0)).map pyStrip) with
        | ok dd =>
          rw [hph] at h
          exact absurd h (by simp)
        | error e2 =>
          rw [hph] at h
          cases hn : nums[i]? with
          | none =>
            rw [hn] at h
            simp only [Except.error.injEq, Prod.mk.injEq] at h
            rw [← h.1]
          | some n =>
            rw [hn] at h
            exact absurd h (by simp)

theorem bstLoop_commands : ∀ (rest : List PyStr) (i : Nat) (nums : List Nat)
    (cur : Option ElemTemper) (temps : List ElemTemper) (m : Model),
    (∀ t2 c2 m2, bstLoop rest i nums cur temps m = .ok (t2, c2, m2) →
      m2.commands = m.commands) ∧
    (∀ m2 e, bstLoop rest i nums cur temps m = .error (m2, e) →
      m2.commands = m.commands) := by
  intro rest
  induction rest with
  | nil =>
    intro i nums cur temps m
    constructor
    · intro t2 c2 m2 h
      rw [bstLoop_nil] at h
      simp only [Except.ok.injEq, Prod.mk.injEq] at h
      rw [← h.2.2]
    · intro m2 e h
      rw [bstLoop_nil] at h
      exact absurd h (by simp)
  | cons l rest' ih =>
    intro i nums cur temps m
    rw [bstLoop_cons]
    cases hstep : bstStep i nums l cur temps m with
    | error em =>
      obtain ⟨me, ee⟩ := em
      constructor
      · intro t2 c2 m2 h
        exact absurd h (by simp)
      · intro m2 e h
        have hme : me = m2 ∧ ee = e := by simpa using h
        rw [← hme.1]
        exact bstStep_commands_error hstep
    | ok st =>
      obtain ⟨cur1, temps1, m1⟩ := st
      have hstepc : m1.commands = m.commands := bstStep_commands hstep
      constructor
      · intro t2 c2 m2 h
        have := (ih (i + 1) nums cur1 temps1 m1).1 t2 c2 m2 h
        rw [this, hstepc]
      · intro m2 e h
        have := (ih (i + 1) nums cur1 temps1 m1).2 m2 e h
        rw [this, hstepc]

theorem bstFinish_commands (cur : Option ElemTemper) (temps : List ElemTemper)
    (m : Model) : (bstFinish cur temps m).2.commands = m.commands := by
  unfold bstFinish
  cases cur with
  | none => rfl
  | some d =>
    dsimp only
    split
    · split <;> rfl
    · rfl

theorem parseBsTemperD_aligned (doc : List PyStr) :
    decAligned doc parseBsTemperD := by
  intro ls ns m ha hm
  unfold parseBsTemperD
  cases hl : bstLoop (ls.drop 1) 1 ns none [] m with
  | error em =>
    obtain ⟨m', e⟩ := em
    dsimp only
    exact modelAligned_of_commands_eq
      ((bstLoop_commands (ls.drop 1) 1 ns none [] m).2 m' e hl) hm
  | ok st =>
    obtain ⟨temps, cur, m'⟩ := st
    dsimp only
    have hm' : modelAligned doc m' :=
      modelAligned_of_commands_eq
        ((bstLoop_commands (ls.drop 1) 1 ns none [] m).1 temps cur m' hl) hm
    have hm2 : modelAligned doc (bstFinish cur temps m').2 :=
      modelAligned_of_commands_eq (bstFinish_commands cur temps m') hm'
    cases hfin : bstFinish cur temps m' with
    | mk temps2 m2 =>
      rw [hfin] at hm2
      exact modelAligned_addCommand hm2 (recAligned_verbatim ha rfl rfl)

theorem parseTsGroupLine_commands (m : Model) (line0 : PyStr) (n : Nat) :
    (parseTsGroupLine m line0 n).1.commands = m.commands := by
  simp only [parseTsGroupLine]
  split
  · rfl
  · split <;> rfl

theorem parseTsGroupLine_some {m : Model} {line0 : PyStr} {n : Nat}
    {m1 : Model} {r : CmdRec}
    (h : parseTsGroupLine m line0 n = (m1, some r)) :
    r.rawOf = [pyStrip (line0.filter (fun c => c ≠ '\\'))] ∧
    r.numsOf = [n] := by
  simp only [parseTsGroupLine] at h
  split at h
  · simp only [Prod.mk.injEq] at h
    exact absurd h.2 (by simp)
  · split at h
    · simp only [Prod.mk.injEq] at h
      exact absurd h.2 (by simp)
    · simp only [Prod.mk.injEq, Option.some.injEq] at h
      rw [← h.2]
      exact ⟨rfl, rfl⟩

theorem tsgSkip_drop : ∀ (l : List PyStr) (i : Nat) (ls : List PyStr),
    l = ls.drop i → (tsgSkip l i).1 = ls.drop (tsgSkip l i).2 := by
  intro l
  induction l with
  | nil => intro i ls h; exact h
  | cons x rest ih =>
    intro i ls h
    rw [tsgSkip_cons_eq]
    split
    · exact h
    · have hrest : rest = ls.drop (i + 1) := by
        have h1 : (ls.drop i).drop 1 = ls.drop (i + 1) := List.drop_drop 1 i ls
        rw [← h] at h1
        simpa using h1
      exact ih (i + 1) ls hrest

theorem tsgLoop_aligned {doc : List PyStr} {ls : List PyStr} {ns : List Nat}
    (ha : alignedPair doc (ls, ns)) :
    ∀ (rem : List PyStr) (i : Nat) (m : Model),
    rem = ls.drop i → modelAligned doc m →
    (∀ res, tsgLoop rem i ns m = .ok res → modelAligned doc res) ∧
    (∀ m2 e, tsgLoop rem i ns m = .error (m2, e) → modelAligned doc m2) := by
  intro rem
  induction rem with
  | nil =>
    intro i m _ hm
    constructor
    · intro res h
      obtain rfl := Except.ok.inj h
      exact hm
    · intro m2 e h
      exact Except.noConfusion h
  | cons l rest ih =>
    intro i m hrem hm
    have hl : ls[i]? = some l := by
      have h0 : (ls.drop i)[0]? = some l := by rw [← hrem]; simp
      rw [List.getElem?_drop] at h0
      simpa using h0
    have hrest : rest = ls.drop (i + 1) := by
      have h1 : (ls.drop i).drop 1 = ls.drop (i + 1) := List.drop_drop 1 i ls
      rw [← hrem] at h1
      simpa using h1
    have hil : i < ls.length := by
      rcases List.getElem?_eq_some.mp hl with ⟨hlt, -⟩
      exact hlt
    rw [tsgLoop_cons_eq]
    by_cases hskip : pyStrip l = [] ∨ (pstr ";").isPrefixOf (pyStrip l)
    · rw [if_pos hskip]
      exact ih (i + 1) m hrest hm
    · rw [if_neg hskip]
      cases hn : ns[i]? with
      | none =>
        constructor
        · intro res h
          exact absurd h (by simp)
        · intro m2 e h
          have hme : m = m2 ∧ indexErrMsg = e := by simpa using h
          rw [← hme.1]
          exact hm
      | some n =>
        have hlval : l = srcLine doc n := by
          have hx := ha.2 i hil
          rw [List.getD_eq_getElem?_getD, hl] at hx
          rw [List.getD_eq_getElem?_getD, hn] at hx
          simpa using hx
        have hstrip : pyStrip l = l := by
          rw [hlval]
          unfold srcLine preprocessLine
          exact pyStrip_idem _
        cases hpl : parseTsGroupLine m (pyStrip l) n with
        | mk m1 or1 =>
          have hcomm : m1.commands = m.commands := by
            have hc := parseTsGroupLine_commands m (pyStrip l) n
            rw [hpl] at hc
            exact hc
          cases or1 with
          | some r =>
            dsimp only
            rw [hpl]
            dsimp only
            have hra : recAligned doc r := by
              obtain ⟨hraw, hnum⟩ := parseTsGroupLine_some hpl
              constructor
              · rw [hraw, hnum]
                rfl
              · intro j hj
                rw [hraw] at hj
                have hj0 : j = 0 := by
                  simpa using Nat.lt_one_iff.mp (by simpa using hj)
                subst hj0
                rw [hraw, hnum]
                rw [List.getD_cons_zero, List.getD_cons_zero]
                right
                rw [hstrip, hlval]
            exact ih (i + 1) _ hrest
              (modelAligned_addCommand (modelAligned_of_commands_eq hcomm hm) hra)
          | none =>
            dsimp only
            rw [hpl]
            dsimp only
            exact ih (i + 1) m1 hrest (modelAligned_of_commands_eq hcomm hm)

theorem parseTsGroupD_aligned (doc : List PyStr) :
    decAligned doc parseTsGroupD := by
  intro ls ns m ha hm
  unfold parseTsGroupD
  by_cases h1 : ls.length < 2
  · rw [if_pos h1]
    exact hm
  · rw [if_neg h1]
    dsimp only
    cases hsk : tsgSkip ls 0 with
    | mk rest i =>
      have hrest : rest = ls.drop i := by
        have hd := tsgSkip_drop ls 0 ls (List.drop_zero ls).symm
        rw [hsk] at hd
        exact hd
      cases hlp : tsgLoop rest i ns m with
      | ok m2 =>
        dsimp only
        exact (tsgLoop_aligned ha rest i m hrest hm).1 m2 hlp
      | error em =>
        obtain ⟨m2, e⟩ := em
        dsimp only
        exact (tsgLoop_aligned ha rest i m hrest hm).2 m2 e hlp

theorem theTable_aligned (doc : List PyStr) (k : PyStr) (dec : Decoder)
    (h : theTable k = some dec) : decAligned doc dec := by
  unfold theTable at h
  by_cases h1 : k = pstr "VERSION"
  · rw [if_pos h1] at h
    obtain rfl := Option.some.inj h
    exact parseVersionD_aligned doc
  · rw [if_neg h1] at h
    by_cases h2 : k = pstr "EIGEN-CTRL"
    · rw [if_pos h2] at h
      obtain rfl := Option.some.inj h
      exact parseEigenCtrlD_aligned doc
    · rw [if_neg h2] at h
      by_cases h3 : k = pstr "SELFWEIGHT"
      · rw [if_pos h3] at h
        obtain rfl := Option.some.inj h
        exact parseSelfWeightD_aligned doc
      · rw [if_neg h3] at h
        by_cases h4 : k = pstr "BSTEMPER"
        · rw [if_pos h4] at h
          obtain rfl := Option.some.inj h
          exact parseBsTemperD_aligned doc
        · rw [if_neg h4] at h
          by_cases h5 : k = pstr "TS-GROUP"
          · rw [if_pos h5] at h
            obtain rfl := Option.some.inj h
            exact parseTsGroupD_aligned doc
          · rw [if_neg h5] at h
            exact Option.noConfusion h

theorem runBlock_aligned {doc : List PyStr} {m : Model}
    {b : PyStr × List PyStr × List Nat}
    (hm : modelAligned doc m) (hb : alignedPair doc b.2) :
    modelAligned doc (runBlock theTable m b) := by
  unfold runBlock
  cases ht : theTable b.1 with
  | none => exact hm
  | some dec =>
    have hdec := theTable_aligned doc b.1 dec ht
    cases hrun : dec b.2.1 b.2.2 m with
    | mk m' o =>
      have h' := hdec b.2.1 b.2.2 m hb hm
      rw [hrun] at h'
      dsimp only
      rw [hrun]
      cases o with
      | none => exact h'
      | some e => exact h'

theorem runBlocks_aligned {doc : List PyStr} :
    ∀ (blocks : List (PyStr × List PyStr × List Nat)) (m : Model),
    (∀ b ∈ blocks, alignedPair doc b.2) → modelAligned doc m →
    modelAligned doc (runBlocks theTable blocks m) := by
  intro blocks
  induction blocks with
  | nil => intro m _ hm; exact hm
  | cons b rest ih =>
    intro m hb hm
    show modelAligned doc (runBlocks theTable rest (runBlock theTable m b))
    exact ih (runBlock theTable m b)
      (fun x hx => hb x (List.mem_cons_of_mem b hx))
      (runBlock_aligned hm (hb b (List.mem_cons_self b rest)))

/-- **C9**: (i) every `(rows, line numbers)` pair produced by
`_split_command_blocks` has equal lengths and its `j`-th stored row is the
preprocessed text of the `j`-th stored 1-based source line number; (ii) for
every record any embedded decoder stores in the Result Model,
`raw_lines`/`line_nums` have equal lengths and the `j`-th raw line
originates from the `j`-th stored line number (it is that source line's
preprocessed text, or, for `TS-GROUP` rows, that text with backslashes
removed and re-stripped). -/
theorem c9_raw_line_nums_alignment (text : PyStr) :
    (∀ d, splitCommandBlocks (splitLines text) = .ok d →
      ∀ p ∈ d, alignedPair (splitLines text) p.2) ∧
    (∀ m, parseText theTable text = .ok m →
      ∀ p ∈ m.commands, recAligned (splitLines text) p.2) := by
  constructor
  · intro d hd
    exact splitCommandBlocks_aligned _ d hd
  · intro m hm p hp
    unfold parseText at hm
    cases hsp : splitCommandBlocks (splitLines text) with
    | error e =>
      rw [hsp] at hm
      exact absurd hm (by simp [bind, Except.bind])
    | ok blocks =>
      rw [hsp] at hm
      have hm' : runBlocks theTable blocks Model.empty = m := by
        simpa [bind, Except.bind, pure, Except.pure] using hm
      have halig := runBlocks_aligned blocks Model.empty
        (splitCommandBlocks_aligned _ _ hsp)
        (fun q hq => absurd hq (by simp [Model.empty]))
      rw [hm'] at halig
      exact halig p hp

/-- C9 witness: the record decoded from `*VERSION\n2.1` keeps aligned
`raw_lines`/`line_nums`. -/
theorem c9_witness :
    recAligned (splitLines (pstr "*VERSION\n2.1"))
      (.version (pstr "2.1") [pstr "*VERSION", pstr "2.1"] [1, 2]) :=
  (c9_raw_line_nums_alignment (pstr "*VERSION\n2.1")).2
    ⟨[(pstr "VERSION",
        .version (pstr "2.1") [pstr "*VERSION", pstr "2.1"] [1, 2])], [], []⟩
    (by decide)
    (pstr "VERSION", .version (pstr "2.1") [pstr "*VERSION", pstr "2.1"] [1, 2])
    (by decide)

/-! ## C1: dispatcher fault isolation -/

/-- A line that, after preprocessing, begins a block also has a keyword
token after the `*` marker — the condition ruling out the splitter's
uncaught `IndexError` (`parser.py:302-303`). -/
abbrev starOk (l : PyStr) : Prop :=
  (preprocessLine l).head? = some '*' → splitWs (preprocessLine l).tail ≠ []

theorem splitAux_total : ∀ (rem : List PyStr) (i : Nat) (cur : Option PyStr)
    (ls : List PyStr) (ns : List Nat) (d : BlockDict),
    (∀ l ∈ rem, starOk l) →
    ∃ res, splitBlocksAux rem i cur ls ns d = .ok res := by
  intro rem
  induction rem with
  | nil =>
    intro i cur ls ns d _
    cases cur with
    | none => exact ⟨d, rfl⟩
    | some c =>
      by_cases hls : ls ≠ []
      · exact ⟨dictInsert d c (ls, ns), by
          show (if ls ≠ [] then Except.ok (dictInsert d c (ls, ns))
            else .ok d) = _
          rw [if_pos hls]⟩
      · exact ⟨d, by
          show (if ls ≠ [] then Except.ok (dictInsert d c (ls, ns))
            else .ok d) = _
          rw [if_neg hls]⟩
  | cons raw rest ih =>
    intro i cur ls ns d hok
    rw [splitBlocksAux_cons]
    have hstep : ∃ st, splitStep i raw cur ls ns d = .ok st := by
      simp only [splitStep]
      by_cases hbl : preprocessLine raw = []
      · rw [if_pos hbl]
        exact ⟨_, rfl⟩
      · rw [if_neg hbl]
        by_cases hst : (preprocessLine raw).head? = some '*'
        · rw [if_pos hst]
          cases hsw : splitWs (preprocessLine raw).tail with
          | nil =>
            exact absurd hsw (hok raw (List.mem_cons_self _ _) hst)
          | cons k ks => exact ⟨_, rfl⟩
        · rw [if_neg hst]
          cases cur with
          | some c => exact ⟨_, rfl⟩
          | none => exact ⟨_, rfl⟩
    obtain ⟨⟨cur', ls', ns', d'⟩, hst⟩ := hstep
    rw [hst]
    exact ih (i + 1) cur' ls' ns' d'
      (fun l hl => hok l (List.mem_cons_of_mem _ hl))

/-- **C1** (amended): (i) whenever every line of the document whose
preprocessed form starts with `*` has a keyword token after the marker,
`parse_text` returns a Result Model (no exception escapes the per-block
dispatch); (ii) a block whose keyword is not in the registry contributes
exactly one appended warning naming the keyword and no record, and decoding
continues with the remaining blocks; (iii) an exception escaping a family
decoder is converted into exactly one appended error entry naming the
command keyword and the exception message, and decoding continues with the
remaining blocks.  Without the condition in (i) the claim fails: a bare `*`
line makes `parse_text` itself propagate the splitter's `IndexError`
(`parser.py:302-303`), as the counterexample shows. -/
theorem c1_dispatcher_fault_isolation :
    (∀ (tbl : DecoderTable) (text : PyStr),
      (∀ l ∈ splitLines text, starOk l) →
      ∃ m, parseText tbl text = .ok m) ∧
    (∀ (tbl : DecoderTable) (cmd : PyStr) (lines : List PyStr)
      (nums : List Nat) (rest : List (PyStr × List PyStr × List Nat))
      (m : Model),
      tbl cmd = none →
      runBlocks tbl ((cmd, lines, nums) :: rest) m =
        runBlocks tbl rest (m.addWarning (unknownCmdEntry cmd))) ∧
    (∀ (tbl : DecoderTable) (cmd : PyStr) (dec : Decoder)
      (lines : List PyStr) (nums : List Nat)
      (rest : List (PyStr × List PyStr × List Nat)) (m m2 : Model) (e : PyStr),
      tbl cmd = some dec → dec lines nums m = (m2, some e) →
      runBlocks tbl ((cmd, lines, nums) :: rest) m =
        runBlocks tbl rest (m2.addError (decodeErrEntry cmd e))) := by
  refine ⟨?_, ?_, ?_⟩
  · intro tbl text h
    obtain ⟨res, hres⟩ := splitAux_total (splitLines text) 0 none [] [] [] h
    refine ⟨runBlocks tbl res Model.empty, ?_⟩
    unfold parseText
    rw [show splitCommandBlocks (splitLines text) = .ok res from hres]
    rfl
  · intro tbl cmd lines nums rest m ht
    have hb : runBlock tbl m (cmd, lines, nums) =
        m.addWarning (unknownCmdEntry cmd) := by
      unfold runBlock
      dsimp only
      rw [ht]
    show List.foldl (runBlock tbl) m ((cmd, lines, nums) :: rest) = _
    rw [List.foldl_cons, hb]
    rfl
  · intro tbl cmd dec lines nums rest m m2 e ht hd
    have hb : runBlock tbl m (cmd, lines, nums) =
        m2.addError (decodeErrEntry cmd e) := by
      unfold runBlock
      dsimp only
      rw [ht]
      dsimp only
      rw [hd]
    show List.foldl (runBlock tbl) m ((cmd, lines, nums) :: rest) = _
    rw [List.foldl_cons, hb]
    rfl

/-- C1 counterexample: on the document consisting of the single line `*`,
`parse_text` propagates the splitter's uncaught `IndexError` instead of
returning a model, so no family-decoder fault isolation can apply. -/
theorem c1_counterexample :
    parseText theTable (pstr "*") = .error indexErrMsg := by decide

/-- C1 witness: the three conjuncts at concrete inputs — a well-starred
document parses to a model, an unregistered `NODE` block logs one warning,
and `parse_eigen_ctrl` blowing up on an empty `line_nums` list logs one
converted error entry. -/
theorem c1_witness :
    (∃ m, parseText theTable (pstr "*VERSION\n2.1") = .ok m) ∧
    runBlocks theTable [(pstr "NODE", [], ([] : List Nat))] Model.empty =
      runBlocks theTable []
        (Model.empty.addWarning (unknownCmdEntry (pstr "NODE"))) ∧
    runBlocks theTable
        [(pstr "EIGEN-CTRL", [pstr "*EIGEN-CTRL", pstr "10 100"],
          ([] : List Nat))] Model.empty =
      runBlocks theTable []
        (Model.empty.addError (decodeErrEntry (pstr "EIGEN-CTRL")
          indexErrMsg)) :=
  ⟨c1_dispatcher_fault_isolation.1 theTable (pstr "*VERSION\n2.1") (by decide),
   c1_dispatcher_fault_isolation.2.1 theTable (pstr "NODE") [] [] []
     Model.empty (by rfl),
   c1_dispatcher_fault_isolation.2.2 theTable (pstr "EIGEN-CTRL")
     parseEigenCtrlD [pstr "*EIGEN-CTRL", pstr "10 100"] [] []
     Model.empty Model.empty indexErrMsg (by rfl) (by decide)⟩

/-- C5 witness: an `EIGEN-CTRL` row with valid required fields but a
non-numeric optional shift field produces no record, while `SELFWEIGHT`
defaults the non-float factor `abc` to `0.0` and still stores the record. -/
theorem c5_witness :
    (parseEigenCtrlD [pstr "*EIGEN-CTRL", pstr "5 100 1e-6 LANCZOS bad"]
        [1, 2] Model.empty =
      (Model.empty.addError (eigenValueErrMsg (floatValueErrorMsg (pstr "bad"))),
       none)) ∧
    (∃ factors opts,
      parseSelfWeightD [pstr "*SELFWEIGHT", pstr "0 abc 1.5"] [1, 2]
          Model.empty =
        (Model.empty.addCommand (pstr "SELFWEIGHT")
          (.selfWeight factors opts [pstr "*SELFWEIGHT", pstr "0 abc 1.5"]
            [1, 2]), none) ∧
      factors.length = 3 ∧
      (∀ j, j < min 3 ([pstr "0", pstr "abc", pstr "1.5"] : List PyStr).length →
        isPyFloat (([pstr "0", pstr "abc", pstr "1.5"] : List PyStr).getD j []) = false →
        factors.getD j [] = pstr "0.0") ∧
      (∀ j, j < min 3 ([pstr "0", pstr "abc", pstr "1.5"] : List PyStr).length →
        isPyFloat (([pstr "0", pstr "abc", pstr "1.5"] : List PyStr).getD j []) = true →
        factors.getD j [] = pyStrip (([pstr "0", pstr "abc", pstr "1.5"] : List PyStr).getD j []))) :=
  ⟨c5_optional_field_policy.1 Model.empty (pstr "*EIGEN-CTRL")
      (pstr "5 100 1e-6 LANCZOS bad") [1, 2] (pstr "5") (pstr "100")
      (pstr "1e-6") (pstr "LANCZOS") (pstr "bad") [] (by decide) (by decide)
      (by decide) (by decide) (by decide),
   c5_optional_field_policy.2 Model.empty (pstr "*SELFWEIGHT")
      (pstr "0 abc 1.5") [1, 2] [pstr "0", pstr "abc", pstr "1.5"]
      (by decide) (by decide)⟩
